import Mathlib

/-!
Verification development for the firebase-realtime-db-emulator repository.

The development shallowly embeds the v2 (and, where a claim needs it, v1)
endpoint logic of the FastAPI application: JSON values, the MongoDB-backed
store (collections of records of the shape with fields _fm_id and _fm_val),
dotted-field-path matching, setting and unsetting as performed by the
find_one, update_one, insert_one, insert_many, delete_one and drop calls,
and the query pipeline (validation, order, range and equality filters and
limits).  Python string manipulation (strip, split, join, replace) is
re-implemented over character lists so that every definition evaluates
inside the kernel.

Modelling conventions, stated once here:
- JSON numbers are modelled as integers (the claims under study only
  involve integral numbers).
- MongoDB comparison operators in filters match only values of the same
  kind (number against number, string against string), reflecting BSON
  type bracketing; the multikey (array-element) matching semantics of
  MongoDB filters is not modelled, and none of the theorems below depends
  on filters applied to array-valued fields.
- A Python runtime exception (TypeError, ValueError, IndexError, duplicate
  key error, and so on) surfaces as an HTTP 500 response from FastAPI;
  all such outcomes are modelled by the single error value Err.serverError,
  exactly like the explicitly raised 500 responses of the source.
- The rules collection __fm_rules__ is held in a dedicated field of the
  store state; it contributes its name to the collection listing whenever
  it is non-empty, which is how it shows up in list_collection_names.
-/

/-- JSON values: null, booleans, (integral) numbers, strings, arrays and
objects.  Objects keep their fields in insertion order, like Python dicts
and BSON documents. -/
inductive J where
  | null
  | bool (b : Bool)
  | num (n : Int)
  | str (s : String)
  | arr (elems : List J)
  | obj (fields : List (String × J))

/-- A query parameter as parsed by FastAPI for the type int-or-str-or-None:
integers parse to ints, everything else stays a string. -/
inductive QP where
  | i (n : Int)
  | s (v : String)
deriving DecidableEq

/-- Error outcomes of the core operations, one constructor per distinct
failure class of the error-handling taxonomy. -/
inductive Err where
  | invalidQuery
  | invalidPayload
  | invalidFilterType
  | indexNotDefined (field : String) (scope : String)
  | notFound
  | serverError
deriving DecidableEq

/-! ## Python-style string helpers (kernel-computable) -/

/-- Python str.strip(c) on the left: drop leading occurrences of one
character. -/
def stripLeadChar (c : Char) (l : List Char) : List Char :=
  l.dropWhile (fun x => x = c)

/-- Python str.strip(c): drop leading and trailing occurrences of one
character. -/
def pyStripChar (c : Char) (s : String) : String :=
  String.mk ((stripLeadChar c (stripLeadChar c s.toList).reverse).reverse)

/-- Python str.split(c): split on every occurrence of one character;
splitting the empty string yields a single empty piece. -/
def pySplitChar (c : Char) (s : String) : List String :=
  let rec go : List Char → List Char → List String
    | [], acc => [String.mk acc.reverse]
    | x :: xs, acc =>
        if x = c then String.mk acc.reverse :: go xs [] else go xs (x :: acc)
  go s.toList []

/-- Python c.join(pieces). -/
def pyJoin (c : Char) : List String → String
  | [] => ""
  | [s] => s
  | s :: rest => s ++ String.mk [c] ++ pyJoin c rest

/-- Python str.replace with single-character pattern and replacement. -/
def pyReplaceChar (from_ to_ : Char) (s : String) : String :=
  String.mk (s.toList.map (fun x => if x = from_ then to_ else x))

/-- Python str.replace(sub, repl) with a string pattern: replace every
occurrence, scanning left to right. -/
def pyReplaceStr (s pat rep : String) : String :=
  let rec strip? : List Char → List Char → Option (List Char)
    | [], l => some l
    | _ :: _, [] => none
    | p :: ps, c :: cs => if c = p then strip? ps cs else none
  let rec go : List Char → Nat → List Char
    | [], _ => []
    | c :: cs, fuel =>
      match fuel with
      | 0 => c :: cs
      | fuel + 1 =>
        match strip? pat.toList (c :: cs) with
        | some rest => rep.toList ++ go rest fuel
        | none => c :: go cs fuel
  if pat.toList.isEmpty then s else String.mk (go s.toList s.toList.length)

/-- Python str.rstrip(c): drop trailing occurrences of one character. -/
def pyRStripChar (c : Char) (s : String) : String :=
  String.mk ((stripLeadChar c s.toList.reverse).reverse)

/-- Decimal digits of a character, if any. -/
def digitVal? (c : Char) : Option Nat :=
  if '0' ≤ c ∧ c ≤ '9' then some (c.toNat - '0'.toNat) else none

/-- Parse a non-empty all-digit string as a natural number (the shape of
segment MongoDB treats as an array index). -/
def natOfSeg? (s : String) : Option Nat :=
  let rec go : List Char → Nat → Option Nat
    | [], acc => some acc
    | c :: cs, acc =>
      match digitVal? c with
      | some d => go cs (acc * 10 + d)
      | none => none
  match s.toList with
  | [] => none
  | l => go l 0

/-- Python int(s) on a string: optional sign followed by at least one
digit (whitespace and underscore separators are not modelled; no path or
parameter in the theorems below contains them). -/
def pyIntOfString? (s : String) : Option Int :=
  match s.toList with
  | '-' :: rest =>
      (match natOfSeg? (String.mk rest) with
       | some n => some (-(n : Int))
       | none => none)
  | '+' :: rest =>
      (match natOfSeg? (String.mk rest) with
       | some n => some (n : Int)
       | none => none)
  | _ =>
      (match natOfSeg? s with
       | some n => some (n : Int)
       | none => none)

/-- The character of one decimal digit. -/
def decDigitChar (d : Nat) : Char := Char.ofNat (48 + d)

/-- Decimal digit characters of a natural number, most significant first,
with structural fuel (the fuel n + 1 always suffices). -/
def natToDecAux : Nat → Nat → List Char
  | 0, _ => []
  | fuel + 1, n =>
      if n < 10 then [decDigitChar n]
      else natToDecAux fuel (n / 10) ++ [decDigitChar (n % 10)]

/-- Python str() of a natural number: its decimal digits. -/
def natToDec (n : Nat) : String := String.mk (natToDecAux (n + 1) n)

/-- Python str() of an integer: a sign followed by the decimal digits. -/
def intToDec (i : Int) : String :=
  if i < 0 then "-" ++ natToDec (-i).toNat else natToDec i.toNat

/-- Lexicographic string comparison by code points, as both Python string
comparison and the MongoDB sort on string values behave on the inputs in
this development.  Stated as the linear order on character lists so that
the order-theoretic lemmas of the library apply. -/
def strLe (a b : String) : Prop := a.toList ≤ b.toList

instance : DecidableRel strLe := fun a b => (inferInstance : Decidable (a.toList ≤ b.toList))

/-- Boolean form of strLe for use inside filters. -/
def strLeB (a b : String) : Bool := decide (strLe a b)

/-! ## Query parameter helpers -/

/-- Python str() of a query parameter. -/
def qpStr : QP → String
  | .i n => intToDec n
  | .s v => v

/-- Python truthiness of a query parameter (0 and the empty string are
falsy). -/
def qpTruthy : QP → Bool
  | .i n => !(n == 0)
  | .s v => !(v == "")

/-- The BSON value a raw query parameter denotes when used in a filter. -/
def qpToJ : QP → J
  | .i n => .num n
  | .s v => .str v

/-- Whether an optional parameter is present and holds an int (the
isinstance(-, (str, NoneType)) check, negated). -/
def qpIsInt : Option QP → Bool
  | some (.i _) => true
  | _ => false

/-- Python int() applied to a query parameter (already-int passes through,
strings are parsed, failure is a ValueError). -/
def qpInt? : Option QP → Option Int
  | some (.i n) => some n
  | some (.s v) => pyIntOfString? v
  | none => none

/-! ## Path handling (the Path Resolver): path.strip("/").split("/") and
the MongoDB dotted-key reconstruction used by the v2 endpoints. -/

/-- path.strip("/").split("/") of the raw route path. -/
def pyPathComponents (path : String) : List String :=
  pySplitChar '/' (pyStripChar '/' path)

/-- Field segments the MongoDB server sees for the dotted key built as
f-string "_fm_val." + key stripped of leading and trailing dots: split on
dots and drop the leading _fm_val component. -/
def mongoSegs (key : String) : List String :=
  (pySplitChar '.' (pyStripChar '.' ("_fm_val." ++ key))).drop 1

/-- The nested_key and parent_key strings computed by the v2 write
endpoints from the field components of the path: nested_key joins all
field components with dots; parent_key is the join of all but the last,
except that it is replaced by nested_key itself whenever that prefix is
non-empty (verbatim from the source). -/
def nestedKeyStr (fs : List String) : String := pyJoin '.' fs

/-- parent_key as computed by the v2 write endpoints (see nestedKeyStr). -/
def parentKeyStr (fs : List String) : String :=
  if fs.dropLast.isEmpty then pyJoin '.' fs.dropLast else nestedKeyStr fs

/-- Segments of the dotted key f"nested_key.k" built by update_data_v2 for
a top-level patch key k (slashes in k first replaced by dots); the whole
string is split on dots by MongoDB and the leading _fm_val dropped. -/
def patchKeySegs (fs : List String) (k : String) : List String :=
  (pySplitChar '.'
    (pyStripChar '.' ("_fm_val." ++ nestedKeyStr fs) ++ "." ++ pyReplaceChar '/' '.' k)).drop 1

/-! ## JSON value operations mirroring the MongoDB document operators -/

/-- Lookup of a field in an object field list (first occurrence). -/
def lookupField (k : String) : List (String × J) → Option J
  | [] => none
  | (k', v) :: rest => if k' == k then some v else lookupField k rest

/-- Python dict update with a single key: replace the value in place if
the key is present, otherwise append the binding at the end. -/
def objUpsert (k : String) (v : J) : List (String × J) → List (String × J)
  | [] => [(k, v)]
  | (k', v') :: rest =>
      if k' == k then (k', v) :: rest else (k', v') :: objUpsert k v rest

/-- Nested object a MongoDB update synthesizes for the missing suffix of a
dotted path. -/
def buildNested (segs : List String) (x : J) : J :=
  segs.foldr (fun k acc => J.obj [(k, acc)]) x

/-- Dotted-path resolution as used by the $exists filter: object fields by
name, array elements by all-digit index. -/
def getPath : J → List String → Option J
  | v, [] => some v
  | .obj fs, k :: ks =>
      (match lookupField k fs with
       | some v' => getPath v' ks
       | none => none)
  | .arr xs, k :: ks =>
      (match natOfSeg? k with
       | some i =>
           (match xs.get? i with
            | some v' => getPath v' ks
            | none => none)
       | none => none)
  | _, _ :: _ => none

/-- Array write with MongoDB padding: indices beyond the end extend the
array with nulls. -/
def padSet (xs : List J) (i : Nat) (v : J) : List J :=
  xs ++ List.replicate (i - xs.length) J.null ++ [v]

/-- MongoDB $set along a dotted path.  Missing object fields are created
(as nested documents), array indices are set in place or padded; setting
below a scalar is a WriteError, modelled as none. -/
def setPath : J → List String → J → Option J
  | _, [], x => some x
  | .obj fs, k :: ks, x =>
      (match lookupField k fs with
       | some v' =>
           (match setPath v' ks x with
            | some nv => some (.obj (objUpsert k nv fs))
            | none => none)
       | none => some (.obj (fs ++ [(k, buildNested ks x)])))
  | .arr xs, k :: ks, x =>
      (match natOfSeg? k with
       | some i =>
           (match xs.get? i with
            | some v' =>
                (match setPath v' ks x with
                 | some nv => some (.arr (xs.set i nv))
                 | none => none)
            | none => some (.arr (padSet xs i (buildNested ks x))))
       | none => none)
  | _, _ :: _, _ => none

/-- MongoDB $unset along a dotted path: removes an object field; an array
element is set to null (MongoDB does not shift); a missing path is a
no-op. -/
def unsetPath : J → List String → J
  | v, [] => v
  | .obj fs, [k] => .obj (fs.eraseP (fun kv => kv.1 == k))
  | .arr xs, [k] =>
      (match natOfSeg? k with
       | some i => if i < xs.length then .arr (xs.set i J.null) else .arr xs
       | none => .arr xs)
  | .obj fs, k :: k' :: ks =>
      .obj (fs.map (fun kv => if kv.1 == k then (kv.1, unsetPath kv.2 (k' :: ks)) else kv))
  | .arr xs, k :: k' :: ks =>
      (match natOfSeg? k with
       | some i =>
           (match xs.get? i with
            | some v' => .arr (xs.set i (unsetPath v' (k' :: ks)))
            | none => .arr xs)
       | none => .arr xs)
  | v, _ :: _ => v

/-- Python indexing l[i] with negative-index wraparound. -/
def pyIndex (xs : List J) (i : Int) : Option J :=
  if 0 ≤ i then xs.get? i.toNat
  else
    let j : Int := (xs.length : Int) + i
    if 0 ≤ j then xs.get? j.toNat else none

/-- The Python-side traversal the read endpoint performs over the raw path
segments after the $exists probe succeeded: list elements by int(k)
(ValueError and IndexError surface as 500), dict fields by key. -/
def pyTraverse : J → List String → Except Err J
  | v, [] => .ok v
  | .arr xs, k :: ks =>
      (match pyIntOfString? k with
       | some i =>
           (match pyIndex xs i with
            | some e => pyTraverse e ks
            | none => .error .serverError)
       | none => .error .serverError)
  | .obj fs, k :: ks =>
      (match lookupField k fs with
       | some v' => pyTraverse v' ks
       | none => .error .serverError)
  | _, _ :: _ => .error .serverError

/-- Python slicing l[:i]. -/
def pySliceTo (i : Int) (l : List α) : List α :=
  if 0 ≤ i then l.take i.toNat
  else l.take (l.length - min l.length (-i).toNat)

/-- Python slicing l[i:]. -/
def pySliceFrom (i : Int) (l : List α) : List α :=
  if 0 ≤ i then l.drop i.toNat
  else l.drop (l.length - min l.length (-i).toNat)

/-! ## The store: collections of records, plus the rules collection -/

/-- A document of a v2 data collection, projected to its payload fields
(the generated _id column is left implicit; a concrete document always
additionally carries _id and, until unset, _fm_val). -/
structure Rec where
  id : String
  val : J

/-- startswith over character lists: does the first list begin the
second. -/
def chStarts : List Char → List Char → Bool
  | [], _ => true
  | _ :: _, [] => false
  | a :: as, b :: bs => a == b && chStarts as bs

/-- The Python substring test sub in s over character lists: true when
the needle occurs contiguously in the haystack (an empty needle always
does). -/
def chOccurs (needle : List Char) : List Char → Bool
  | [] => chStarts needle []
  | b :: bs => chStarts needle (b :: bs) || chOccurs needle bs

/-- An indexOn payload as accepted and stored verbatim by set-index: a
str (the route default is the string ".value"), a list, or a dict. -/
inductive Idx where
  | str (s : String)
  | list (l : List J)
  | dict (d : List (String × J))

/-- The Python membership test f in index_ used by the query gates:
substring containment on a str rule, element equality on a list rule (a
str element only ever equals the str field name), and key membership on
a dict rule. -/
def pyInIdx (f : String) : Idx → Bool
  | .str s => chOccurs f.toList s.toList
  | .list l => l.any (fun j => match j with | .str t => t == f | _ => false)
  | .dict d => d.any (fun kv => kv.1 == f)

/-- Python truthiness of an indexOn payload: the empty str, list and
dict are falsy. -/
def idxTruthy : Idx → Bool
  | .str s => !s.toList.isEmpty
  | .list l => !l.isEmpty
  | .dict d => !d.isEmpty

/-- The JSON echo of a stored indexOn payload. -/
def idxToJ : Idx → J
  | .str s => .str s
  | .list l => .arr l
  | .dict d => .obj d

/-- The database state: data collections in creation order, and the
documents of the __fm_rules__ collection as bindings from a path scope to
its indexOn payload. -/
structure DB where
  cols : List (String × List Rec)
  rules : List (String × Idx)

/-- Assoc-list lookup on collections. -/
def colLookup (name : String) : List (String × List Rec) → Option (List Rec)
  | [] => none
  | (n, c) :: rest => if n == name then some c else colLookup name rest

/-- get_collection: a missing collection reads as empty (MongoDB creates
collections lazily). -/
def getCol (db : DB) (name : String) : List Rec :=
  (colLookup name db.cols).getD []

/-- Replace or create a collection. -/
def setColList (name : String) (c : List Rec) : List (String × List Rec) → List (String × List Rec)
  | [] => [(name, c)]
  | (n, c') :: rest =>
      if n == name then (n, c) :: rest else (n, c') :: setColList name c rest

/-- Replace or create a collection in the database state. -/
def setCol (db : DB) (name : String) (c : List Rec) : DB :=
  { db with cols := setColList name c db.cols }

/-- Drop a data collection (dropping __fm_rules__ clears the rules). -/
def dropCol (db : DB) (name : String) : DB :=
  { cols := db.cols.filter (fun nc => !(nc.1 == name)),
    rules := if name == "__fm_rules__" then [] else db.rules }

/-- list_collection_names: the data collections plus __fm_rules__ when it
holds documents. -/
def listCollectionNames (db : DB) : List String :=
  db.cols.map Prod.fst ++ (if db.rules.isEmpty then [] else ["__fm_rules__"])

/-- Whether a named collection exists in the store. -/
def colExists (db : DB) (name : String) : Bool :=
  (listCollectionNames db).contains name

/-- ids of the records of a collection. -/
def colIds (c : List Rec) : List String := c.map Rec.id

/-- insert_many with ordered=False against the unique index on _fm_id:
an empty document list is a pymongo InvalidOperation and a duplicate id
makes the inserted count fall short, both reported as 500. -/
def insertManyRecs (docs : List Rec) : Except Err (List Rec) :=
  if docs.isEmpty then .error .serverError
  else if (colIds docs).Nodup then .ok docs
  else .error .serverError

/-- insert_one against the unique index on _fm_id: a duplicate id raises
DuplicateKeyError (a 500). -/
def insertOneRec (c : List Rec) (r : Rec) : Except Err (List Rec) :=
  if (colIds c).contains r.id then .error .serverError else .ok (c ++ [r])

/-- Replace the value of the first record satisfying the predicate (the
update_one target matched by _id). -/
def replaceRecVal (p : Rec → Bool) (nv : J) : List Rec → List Rec
  | [] => []
  | r :: rest => if p r then ⟨r.id, nv⟩ :: rest else r :: replaceRecVal p nv rest

/-- Remove the first record satisfying the predicate (delete_one). -/
def removeRec (p : Rec → Bool) : List Rec → List Rec
  | [] => []
  | r :: rest => if p r then rest else r :: removeRec p rest

/-! ## Recursive value comparisons -/

/-- BSON equality as used by MongoDB equality filters on the values in
this development (syntactic equality of the embedded values). -/
def jBeq : J → J → Bool
  | .null, .null => true
  | .bool a, .bool b => a == b
  | .num a, .num b => a == b
  | .str a, .str b => a == b
  | .arr xs, .arr ys =>
      let rec goA : List J → List J → Bool
        | [], [] => true
        | x :: xs, y :: ys => jBeq x y && goA xs ys
        | _, _ => false
      goA xs ys
  | .obj xs, .obj ys =>
      let rec goO : List (String × J) → List (String × J) → Bool
        | [], [] => true
        | (k, x) :: xs, (k', y) :: ys => k == k' && jBeq x y && goO xs ys
        | _, _ => false
      goO xs ys
  | _, _ => false

/-- Rank of a value in the BSON comparison order (Null < Numbers < String
< Object < Array < Boolean). -/
def bsonRank : J → Nat
  | .null => 0
  | .num _ => 1
  | .str _ => 2
  | .obj _ => 3
  | .arr _ => 4
  | .bool _ => 5

/-- Three-way comparison of character lists. -/
def chCmp : List Char → List Char → Ordering
  | [], [] => .eq
  | [], _ :: _ => .lt
  | _ :: _, [] => .gt
  | c :: cs, d :: ds =>
      if c < d then .lt else if d < c then .gt else chCmp cs ds

/-- Three-way integer comparison. -/
def intCmp (a b : Int) : Ordering :=
  if a < b then .lt else if b < a then .gt else .eq

/-- BSON comparison order used by MongoDB sorts: rank first, then within
a rank numbers by value, strings lexicographically, objects field by field
(name then value) and then by width, arrays element-wise and then by
length, booleans with false before true. -/
def bsonCmp : J → J → Ordering
  | .null, .null => .eq
  | .bool a, .bool b => if a == b then .eq else if a then .gt else .lt
  | .num a, .num b => intCmp a b
  | .str a, .str b => chCmp a.toList b.toList
  | .arr xs, .arr ys =>
      let rec goA : List J → List J → Ordering
        | [], [] => .eq
        | [], _ :: _ => .lt
        | _ :: _, [] => .gt
        | x :: xs, y :: ys =>
            match bsonCmp x y with
            | .eq => goA xs ys
            | o => o
      goA xs ys
  | .obj xs, .obj ys =>
      let rec goO : List (String × J) → List (String × J) → Ordering
        | [], [] => .eq
        | [], _ :: _ => .lt
        | _ :: _, [] => .gt
        | (k, x) :: xs, (k', y) :: ys =>
            match chCmp k.toList k'.toList with
            | .eq =>
                (match bsonCmp x y with
                 | .eq => goO xs ys
                 | o => o)
            | o => o
      goO xs ys
  | a, b => intCmp (bsonRank a) (bsonRank b)

/-- Boolean less-or-equal from the BSON comparison. -/
def bsonLeB (a b : J) : Bool :=
  match bsonCmp a b with
  | .gt => false
  | _ => true

/-- MongoDB $gte of a stored value against a raw query parameter (same
BSON kind only). -/
def mongoGeQP (v : J) (q : QP) : Bool :=
  match v, q with
  | .num a, .i b => decide (b ≤ a)
  | .str a, .s b => strLeB b a
  | _, _ => false

/-- MongoDB $lte of a stored value against a raw query parameter (same
BSON kind only). -/
def mongoLeQP (v : J) (q : QP) : Bool :=
  match v, q with
  | .num a, .i b => decide (a ≤ b)
  | .str a, .s b => strLeB a b
  | _, _ => false

/-! ## Python repr and str of values (used by the order_by_value range
filters, which compare str(value) with str(bound)) -/

/-- The single-quote character, written via its code point. -/
def sqcChar : Char := Char.ofNat 39

/-- A string holding one single-quote character. -/
def sqs : String := String.mk [sqcChar]

/-- Python repr of an embedded value (True, False, None, quoted strings,
bracketed containers). -/
def pyRepr : J → String
  | .null => "None"
  | .bool b => if b then "True" else "False"
  | .num n => intToDec n
  | .str s => sqs ++ s ++ sqs
  | .arr xs =>
      let rec goA : List J → String
        | [] => ""
        | [x] => pyRepr x
        | x :: y :: rest => pyRepr x ++ ", " ++ goA (y :: rest)
      "[" ++ goA xs ++ "]"
  | .obj fs =>
      let rec goO : List (String × J) → String
        | [] => ""
        | [(k, x)] => sqs ++ k ++ sqs ++ ": " ++ pyRepr x
        | (k, x) :: y :: rest =>
            sqs ++ k ++ sqs ++ ": " ++ pyRepr x ++ ", " ++ goO (y :: rest)
      "\x7b" ++ goO fs ++ "\x7d"

/-- Python str of an embedded value: strings print bare, containers print
via repr. -/
def pyStr : J → String
  | .str s => s
  | .bool b => if b then "True" else "False"
  | .null => "None"
  | .num n => intToDec n
  | .arr xs => pyRepr (.arr xs)
  | .obj fs => pyRepr (.obj fs)

/-! ## The sort key of order_by_value -/

/-- Mirror of the Python tuples produced by the sort_key helper inside
order_by_value: the None payload, booleans, integers, strings, lists of
keys, and tuples. -/
inductive SKey where
  | none_
  | b (x : Bool)
  | i (x : Int)
  | s (x : String)
  | l (xs : List SKey)
  | t (xs : List SKey)

/-- Rank used to compare sort keys of different shapes (unreachable for
the tuples sort_key produces, which always agree shape-wise whenever their
leading tags agree). -/
def skRank : SKey → Nat
  | .none_ => 0
  | .b _ => 1
  | .i _ => 2
  | .s _ => 3
  | .l _ => 4
  | .t _ => 5

/-- Python comparison of sort-key tuples: element-wise, shorter tuples
first on a tie. -/
def skCmp : SKey → SKey → Ordering
  | .none_, .none_ => .eq
  | .b a, .b a' => if a == a' then .eq else if a then .gt else .lt
  | .i a, .i a' => intCmp a a'
  | .s a, .s a' => chCmp a.toList a'.toList
  | .l xs, .l ys =>
      let rec goL : List SKey → List SKey → Ordering
        | [], [] => .eq
        | [], _ :: _ => .lt
        | _ :: _, [] => .gt
        | x :: xs, y :: ys =>
            match skCmp x y with
            | .eq => goL xs ys
            | o => o
      goL xs ys
  | .t xs, .t ys =>
      let rec goT : List SKey → List SKey → Ordering
        | [], [] => .eq
        | [], _ :: _ => .lt
        | _ :: _, [] => .gt
        | x :: xs, y :: ys =>
            match skCmp x y with
            | .eq => goT xs ys
            | o => o
      goT xs ys
  | a, b => intCmp (skRank a) (skRank b)

/-- The sort_key helper of order_by_value, applied to an item (key, value):
None, booleans (inverted), numbers, strings, lists (keyed by position) and
dicts (keyed by field name) map to tagged tuples. -/
def sortKeyV : J → SKey → SKey
  | .null, _ => .t [.i 0, .none_]
  | .bool x, k => .t [.i 1, .b (!x), k]
  | .num n, k => .t [.i 2, .i n, k]
  | .str s, k => .t [.i 3, .s s, k]
  | .arr xs, k =>
      let rec goA : Nat → List J → List SKey
        | _, [] => []
        | i, x :: rest => sortKeyV x (.i (i : Int)) :: goA (i + 1) rest
      .t [.i 4, .l (goA 0 xs), k]
  | .obj fs, k =>
      let rec goO : List (String × J) → List SKey
        | [] => []
        | (kk, x) :: rest => sortKeyV x (.s kk) :: goO rest
      .t [.i 5, .l (goO fs), k]

/-- Less-or-equal on sort keys. -/
def skLeB (a b : SKey) : Bool :=
  match skCmp a b with
  | .gt => false
  | _ => true

/-- The order relation Python sorted uses on the items of order_by_value. -/
def obvLe (a b : String × J) : Prop :=
  skLeB (sortKeyV a.2 (.s a.1)) (sortKeyV b.2 (.s b.1)) = true

instance : DecidableRel obvLe := fun a b =>
  (inferInstance : Decidable (skLeB (sortKeyV a.2 (.s a.1)) (sortKeyV b.2 (.s b.1)) = true))

/-- order_by_value: sort the items of a mapping by sort_key, then keep
only the items whose str(value) lies in the inclusive range given by the
str of the bounds. -/
def order_by_value (d : List (String × J)) (sa ea : Option QP) : List (String × J) :=
  let sorted := List.insertionSort obvLe d
  let f1 :=
    match sa with
    | some q => sorted.filter (fun kv => strLeB (qpStr q) (pyStr kv.2))
    | none => sorted
  match ea with
  | some q => f1.filter (fun kv => strLeB (pyStr kv.2) (qpStr q))
  | none => f1

/-- order_by_key: keep the items at or above startAt and at or below
endAt.  The call sites guarantee string bounds; a stray int bound would be
a Python TypeError, modelled as matching nothing. -/
def order_by_key (items : List String) (sa ea : Option QP) : List String :=
  let i1 :=
    match sa with
    | some (.s t) => items.filter (fun it => strLeB t it)
    | some (.i _) => items.filter (fun _ => false)
    | none => items
  match ea with
  | some (.s t) => i1.filter (fun it => strLeB it t)
  | some (.i _) => i1.filter (fun _ => false)
  | none => i1

/-! ## The index registry -/

/-- Assoc lookup in the rules collection. -/
def rulesLookup (p : String) : List (String × Idx) → Option Idx
  | [] => none
  | (p', v) :: rest => if p' == p then some v else rulesLookup p rest

/-- Assoc replace-or-append in the rules collection. -/
def rulesUpsert (p : String) (v : Idx) : List (String × Idx) → List (String × Idx)
  | [] => [(p, v)]
  | (p', v') :: rest =>
      if p' == p then (p', v) :: rest else (p', v') :: rulesUpsert p v rest

/-- check_index: the indexOn payload stored for a path (default scope
__root__), if any, exactly as set-index stored it. -/
def check_index (db : DB) (path : Option String) : Option Idx :=
  rulesLookup (path.getD "__root__") db.rules

/-- set_index: upsert the indexOn payload for a path scope (default
__root__) and echo the stored rule. -/
def set_index (db : DB) (path : Option String) (index_on : Idx) : Except Err J × DB :=
  let scope := path.getD "__root__"
  (.ok (J.obj [("path", .str scope), ("indexOn", idxToJ index_on)]),
   { db with rules := rulesUpsert scope index_on db.rules })

/-! ## Query building blocks -/

/-- The parameter-combination validation shared by the v2 read endpoints
(verbatim operator structure: the and binds tighter than the or chain). -/
def validationFails (ob : Option String) (ltf ltl : Option Int) (eq sa ea : Option QP) : Option Err :=
  if ltf.isSome || ltl.isSome || eq.isSome || (sa.isSome && ea.isSome) then
    if ob.isNone then some .invalidQuery
    else if ltf.isSome && ltl.isSome then some .invalidQuery
    else none
  else none

/-- orderBy.strip(quote) applied when the parameter both starts and ends
with a double quote. -/
def stripQuotes (s : String) : String :=
  if s.toList.head? == some '"' && s.toList.getLast? == some '"' then
    pyStripChar '"' s
  else s

/-- The range filter on _fm_id for orderBy equal to the key marker. -/
def fmIdRange (sa ea : Option QP) (r : Rec) : Bool :=
  (match sa with
   | some q => mongoGeQP (.str r.id) q
   | none => true) &&
  (match ea with
   | some q => mongoLeQP (.str r.id) q
   | none => true)

/-- The _fm_id filter: a truthy equalTo replaces the range filter by an
equality against str(equalTo). -/
def fmIdPred (eq sa ea : Option QP) (r : Rec) : Bool :=
  match eq with
  | some q => if qpTruthy q then r.id == qpStr q else fmIdRange sa ea r
  | none => fmIdRange sa ea r

/-- The range filter on _fm_val for orderBy equal to the value marker. -/
def fmValRange (sa ea : Option QP) (r : Rec) : Bool :=
  (match sa with
   | some q => mongoGeQP r.val q
   | none => true) &&
  (match ea with
   | some q => mongoLeQP r.val q
   | none => true)

/-- The _fm_val filter: a truthy equalTo replaces the range filter by an
equality. -/
def fmValPred (eq sa ea : Option QP) (r : Rec) : Bool :=
  match eq with
  | some q => if qpTruthy q then jBeq r.val (qpToJ q) else fmValRange sa ea r
  | none => fmValRange sa ea r

/-- The existence-plus-range filter on a child field. -/
def fieldRange (segs : List String) (sa ea : Option QP) (r : Rec) : Bool :=
  match getPath r.val segs with
  | none => false
  | some v =>
      (match sa with
       | some q => mongoGeQP v q
       | none => true) &&
      (match ea with
       | some q => mongoLeQP v q
       | none => true)

/-- The child-field filter: a truthy equalTo replaces the existence-range
document by a plain equality. -/
def fieldPred (segs : List String) (eq sa ea : Option QP) (r : Rec) : Bool :=
  match eq with
  | some q =>
      if qpTruthy q then
        (match getPath r.val segs with
         | some v => jBeq v (qpToJ q)
         | none => false)
      else fieldRange segs sa ea r
  | none => fieldRange segs sa ea r

/-- Record order by _fm_id ascending. -/
def idLe (a b : Rec) : Prop := strLe a.id b.id

instance : DecidableRel idLe := fun a b => (inferInstance : Decidable (strLe a.id b.id))

/-- Record order by _fm_id descending. -/
def idGe (a b : Rec) : Prop := strLe b.id a.id

instance : DecidableRel idGe := fun a b => (inferInstance : Decidable (strLe b.id a.id))

/-- MongoDB sort on _fm_id in the requested direction. -/
def idSort (desc : Bool) (l : List Rec) : List Rec :=
  if desc then List.insertionSort idGe l else List.insertionSort idLe l

/-- Record order by _fm_val in the BSON order. -/
def valLe (a b : Rec) : Prop := bsonLeB a.val b.val = true

instance : DecidableRel valLe := fun a b => (inferInstance : Decidable (bsonLeB a.val b.val = true))

/-- Record order by _fm_val descending. -/
def valGe (a b : Rec) : Prop := bsonLeB b.val a.val = true

instance : DecidableRel valGe := fun a b => (inferInstance : Decidable (bsonLeB b.val a.val = true))

/-- MongoDB sort on _fm_val in the requested direction. -/
def valSort (desc : Bool) (l : List Rec) : List Rec :=
  if desc then List.insertionSort valGe l else List.insertionSort valLe l

/-- MongoDB sort on a child field in the requested direction (a missing
field sorts lowest, like the BSON missing-before-null convention folded
into null). -/
def fieldSort (segs : List String) (desc : Bool) (l : List Rec) : List Rec :=
  if desc then
    List.insertionSort (fun a b => bsonLeB ((getPath b.val segs).getD .null) ((getPath a.val segs).getD .null) = true) l
  else
    List.insertionSort (fun a b => bsonLeB ((getPath a.val segs).getD .null) ((getPath b.val segs).getD .null) = true) l

/-- Dotted segments of the child-field sort key: orderBy.rstrip of the
slash, slashes to dots, prefixed by _fm_val (without a strip, verbatim
from the source). -/
def fieldSegsOf (ob : String) : List String :=
  pySplitChar '.' (pyReplaceChar '/' '.' (pyRStripChar '/' ob))

/-- cursor.limit(limitToFirst or limitToLast): a falsy limitToFirst falls
back to limitToLast; both falsy is a TypeError; limit(0) means no limit
and a negative limit acts like its absolute value. -/
def applyMongoLimit (ltf ltl : Option Int) (docs : List Rec) : Except Err (List Rec) :=
  if ltf.isSome || ltl.isSome then
    match (match ltf with
           | some k => if k == 0 then ltl else some k
           | none => ltl) with
    | none => .error .serverError
    | some n => .ok (if n == 0 then docs else docs.take n.natAbs)
  else .ok docs

/-- Successive dict.update calls building a result mapping. -/
def dictOfPairs (l : List (String × J)) : List (String × J) :=
  l.foldl (fun acc kv => objUpsert kv.1 kv.2 acc) []

/-- The result mapping built from fetched documents, id to value. -/
def buildResult (docs : List Rec) : List (String × J) :=
  dictOfPairs (docs.map (fun r => (r.id, r.val)))

/-- Python list limits applied by slicing: l[:limitToFirst] then
l[-limitToLast:]. -/
def pyLimits (ltf ltl : Option Int) (l : List α) : List α :=
  let l1 :=
    match ltf with
    | some n => pySliceTo n l
    | none => l
  match ltl with
  | some n => pySliceFrom (-n) l1
  | none => l1

/-! ## The v2 read endpoints -/

/-- Python slicing v[:n] of whatever the subtree pipeline currently holds:
lists and strings slice, anything else is a TypeError. -/
def jSliceTo (n : Int) : J → Except Err J
  | .arr xs => .ok (.arr (pySliceTo n xs))
  | .str s => .ok (.str (String.mk (pySliceTo n s.toList)))
  | _ => .error .serverError

/-- Python slicing v[-n:] of whatever the subtree pipeline currently
holds. -/
def jSliceLast (n : Int) : J → Except Err J
  | .arr xs => .ok (.arr (pySliceFrom (-n) xs))
  | .str s => .ok (.str (String.mk (pySliceFrom (-n) s.toList)))
  | _ => .error .serverError

/-- The scalar fallthrough of the subtree query: any range or equality
parameter empties the result; any limit turns it into None. -/
def subtreeScalar (v0 : J) (ltf ltl : Option Int) (eq sa ea : Option QP) : J :=
  let base := if sa.isSome || ea.isSome || eq.isSome then J.obj [] else v0
  if ltf.isSome || ltl.isSome then J.null else base

/-- Subtree query, orderBy key marker, list value: integer slicing by the
bounds, an equalTo picks one element (or None past the end), limits slice
whatever remains. -/
def subtreeKeyList (xs : List J) (ltf ltl : Option Int) (eq sa ea : Option QP) : Except Err J := do
  let xs1 ←
    match sa with
    | some q =>
        (match qpInt? (some q) with
         | some i => Except.ok (pySliceFrom i xs)
         | none => Except.error Err.serverError)
    | none => Except.ok xs
  let xs2 ←
    match ea with
    | some q =>
        (match qpInt? (some q) with
         | some i => Except.ok (pySliceTo i xs1)
         | none => Except.error Err.serverError)
    | none => Except.ok xs1
  match eq with
  | some q =>
      (match qpInt? (some q) with
       | none => Except.error Err.serverError
       | some i =>
          do
           let cur ←
             if i ≤ (xs2.length : Int) then
               (match pyIndex xs2 i with
                | some e => Except.ok e
                | none => Except.error Err.serverError)
             else Except.ok J.null
           let cur2 ←
             match ltf with
             | some n => jSliceTo n cur
             | none => Except.ok cur
           match ltl with
           | some n => jSliceLast n cur2
           | none => Except.ok cur2)
  | none =>
      let xs3 :=
        match ltf with
        | some n => pySliceTo n xs2
        | none => xs2
      let xs4 :=
        match ltl with
        | some n => pySliceFrom (-n) xs3
        | none => xs3
      Except.ok (.arr xs4)

/-- Item order by stringified key used by the subtree dict branch. -/
def itemKeyLe (a b : String × J) : Prop := strLe a.1 b.1

instance : DecidableRel itemKeyLe := fun a b => (inferInstance : Decidable (strLe a.1 b.1))

/-- Subtree query, orderBy key marker, dict value: sort items by key,
filter by the stringified bounds, equalTo compares keys (and leaves a
generator, so a subsequent limit is a TypeError), limits slice. -/
def subtreeKeyDict (fs0 : List (String × J)) (ltf ltl : Option Int) (eq sa ea : Option QP) : Except Err J :=
  let pairs := List.insertionSort itemKeyLe fs0
  let p1 :=
    match sa with
    | some q => pairs.filter (fun kv => strLeB (qpStr q) kv.1)
    | none => pairs
  let p2 :=
    match ea with
    | some q => p1.filter (fun kv => strLeB kv.1 (qpStr q))
    | none => p1
  match eq with
  | some q =>
      let p3 := p2.filter (fun kv =>
        match q with
        | .s t => kv.1 == t
        | .i _ => false)
      if ltf.isSome || ltl.isSome then .error .serverError
      else .ok (.obj (dictOfPairs p3))
  | none =>
      let p3 :=
        match ltf with
        | some n => pySliceTo n p2
        | none => p2
      let p4 :=
        match ltl with
        | some n => pySliceFrom (-n) p3
        | none => p3
      .ok (.obj (dictOfPairs p4))

/-- Subtree query, orderBy value marker, list value: filter elements by
stringified comparison with the bounds and equalTo, then slice by the
limits. -/
def subtreeValList (xs : List J) (ltf ltl : Option Int) (eq sa ea : Option QP) : J :=
  let x1 :=
    match sa with
    | some q => xs.filter (fun it => strLeB (qpStr q) (pyStr it))
    | none => xs
  let x2 :=
    match ea with
    | some q => x1.filter (fun it => strLeB (pyStr it) (qpStr q))
    | none => x1
  let x3 :=
    match eq with
    | some q => x2.filter (fun it => pyStr it == qpStr q)
    | none => x2
  let x4 :=
    match ltf with
    | some n => pySliceTo n x3
    | none => x3
  let x5 :=
    match ltl with
    | some n => pySliceFrom (-n) x4
    | none => x4
  .arr x5

/-- Subtree query, orderBy value marker, dict value: order_by_value, then
items (a dict_items view, so any limit is a TypeError), with equalTo
filtering keys. -/
def subtreeValDict (fs0 : List (String × J)) (ltf ltl : Option Int) (eq sa ea : Option QP) : Except Err J :=
  let pairs := order_by_value fs0 sa ea
  let p1 :=
    match eq with
    | some q =>
        pairs.filter (fun kv =>
          match q with
          | .s t => kv.1 == t
          | .i _ => false)
    | none => pairs
  if ltf.isSome || ltl.isSome then .error .serverError
  else .ok (.obj (dictOfPairs p1))

/-- The v2 read endpoint for a non-root path: validation, then either the
single-record subtree branch (existence probe on the dotted path, Python
traversal, per-shape ordering and filtering) or the whole-bucket branch
(MongoDB filter, sort and limit, result assembled id to value). -/
def query_data_v2 (db : DB) (path : String) (ob : Option String)
    (ltf ltl : Option Int) (eq sa ea : Option QP) : Except Err J :=
  match validationFails ob ltf ltl eq sa ea with
  | some e => .error e
  | none =>
    match pyPathComponents path with
    | [] => .error .serverError
    | b :: rest =>
      let col := getCol db b
      match rest with
      | r :: fs =>
        let segs := mongoSegs (nestedKeyStr fs)
        (match col.find? (fun rc => rc.id == r && (getPath rc.val segs).isSome) with
         | none => .ok .null
         | some rc =>
           match pyTraverse rc.val fs with
           | .error e => .error e
           | .ok v0 =>
             match ob with
             | none => .ok v0
             | some o =>
               if o == "\"$key\"" then
                 match v0 with
                 | .arr xs => subtreeKeyList xs ltf ltl eq sa ea
                 | .obj fs0 => subtreeKeyDict fs0 ltf ltl eq sa ea
                 | _ => .ok (subtreeScalar v0 ltf ltl eq sa ea)
               else if o == "\"$value\"" then
                 (match check_index db (some path) with
                  | some idx =>
                      if pyInIdx ".value" idx then
                        match v0 with
                        | .arr xs => .ok (subtreeValList xs ltf ltl eq sa ea)
                        | .obj fs0 => subtreeValDict fs0 ltf ltl eq sa ea
                        | _ => .ok (subtreeScalar v0 ltf ltl eq sa ea)
                      else .error (.indexNotDefined ".value" path)
                  | none => .error (.indexNotDefined ".value" path))
               else
                 let o2 := stripQuotes o
                 (match check_index db (some path) with
                  | some idx =>
                      if pyInIdx o2 idx then .ok v0
                      else .error (.indexNotDefined o2 path)
                  | none => .error (.indexNotDefined o2 path)))
      | [] =>
        let desc := ltl.isSome
        let docsE : Except Err (List Rec) :=
          match ob with
          | some o =>
            if o == "\"$key\"" then
              if (sa.isSome || ea.isSome) && (qpIsInt sa || qpIsInt ea) then
                .error .invalidFilterType
              else .ok (idSort desc (col.filter (fmIdPred eq sa ea)))
            else if o == "\"$value\"" then
              (match check_index db (some path) with
               | some idx =>
                   if pyInIdx ".value" idx then
                     .ok (valSort desc (col.filter (fmValPred eq sa ea)))
                   else .error (.indexNotDefined ".value" path)
               | none => .error (.indexNotDefined ".value" path))
            else
              let o2 := stripQuotes o
              (match check_index db (some b) with
               | some idx =>
                   if pyInIdx o2 idx then
                     let fsegs := fieldSegsOf o2
                     .ok (fieldSort fsegs desc (col.filter (fieldPred fsegs eq sa ea)))
                   else .error (.indexNotDefined o2 path)
               | none => .error (.indexNotDefined o2 path))
          | none => .ok (idSort desc col)
        match docsE with
        | .error e => .error e
        | .ok docs =>
          match applyMongoLimit ltf ltl docs with
          | .error e => .error e
          | .ok docs2 => .ok (.obj (buildResult docs2))

/-- One entry of a root query result: a collection name mapped to its
records, id to value. -/
def rootEntry (db : DB) (c : String) : String × J :=
  (c, .obj (buildResult (getCol db c)))

/-- The collection listing a root query works from: the reserved names
filtered out, then sorted. -/
def rootCollections (db : DB) : List String :=
  List.insertionSort strLe
    ((listCollectionNames db).filter
      (fun i => !(i == "__fm_root__") && !(i == "__fm_rules__")))

/-- The v2 read endpoint for the root path: validation, removal of the
reserved collection names, sorting of the names, then the per-orderBy
pipelines of the source. -/
def query_data_root_v2 (db : DB) (ob : Option String)
    (ltf ltl : Option Int) (eq sa ea : Option QP) : Except Err (List (String × J)) :=
  match validationFails ob ltf ltl eq sa ea with
  | some e => .error e
  | none =>
    let collections := rootCollections db
    match ob with
    | some o =>
      if o == "\"$key\"" then
        (match
          (if sa.isSome || ea.isSome then
            (if qpIsInt sa || qpIsInt ea then Except.error Err.invalidFilterType
             else Except.ok (order_by_key collections sa ea))
           else Except.ok collections) with
         | .error e => .error e
         | .ok cols1 =>
           let cols2 :=
             match eq with
             | some q =>
                 if cols1.isEmpty then cols1
                 else
                   (match q with
                    | .s t => if cols1.contains t then [t] else []
                    | .i _ => [])
             | none => cols1
           let cols3 := pyLimits ltf ltl cols2
           .ok (cols3.map (rootEntry db)))
      else if o == "\"$value\"" then
        (match check_index db none with
         | some idx =>
             if pyInIdx ".value" idx then
               let base := if eq.isSome then [] else collections.map (rootEntry db)
               let r1 := order_by_value base sa ea
               let r2 := if ltf.isSome || ltl.isSome then pyLimits ltf ltl r1 else r1
               .ok r2
             else .error (.indexNotDefined ".value" "/")
         | none => .error (.indexNotDefined ".value" "/"))
      else
        let o2 := stripQuotes o
        (match check_index db none with
         | some idx =>
             if idxTruthy idx && pyInIdx o2 idx then
               let cols1 := if sa.isSome || ea.isSome || eq.isSome then [] else collections
               let cols2 := pyLimits ltf ltl cols1
               .ok (cols2.map (rootEntry db))
             else .error (.indexNotDefined o2 "/")
         | none => .error (.indexNotDefined o2 "/"))
    | none => .ok (collections.map (rootEntry db))

/-! ## The v2 write endpoints -/

/-- Dotted segments of the key f"nested_key.k" appended below the nested
key by post_data_v2 (the pushed child id) and, after slash replacement,
by update_data_v2. -/
def childKeySegs (fs : List String) (k : String) : List String :=
  (pySplitChar '.'
    (pyStripChar '.' ("_fm_val." ++ nestedKeyStr fs) ++ "." ++ k)).drop 1

/-- The wrapping loop for key in path_components down to index 2 in
reverse, data becoming a singleton dict at each step. -/
def wrapSegs (fs : List String) (d : J) : J :=
  fs.foldr (fun k acc => J.obj [(k, acc)]) d

/-- The find_one probe shared by the v2 write endpoints: first record with
the requested id whose value carries the given dotted path. -/
def findRec (col : List Rec) (r : String) (segs : List String) : Option Rec :=
  col.find? (fun rc => rc.id == r && (getPath rc.val segs).isSome)

/-- put_data_v2: full replace.  At bucket level the collection is dropped
and repopulated from a dict (one record per key) or a list (one record per
index); any other payload shape is a 422 after the drop.  At record level
the existence of parent_key decides between an in-place $set of
nested_key and an insert of the synthesized nested value under the
record id of the path. -/
def put_data_v2 (db : DB) (path : String) (data : Option J) : Except Err J × DB :=
  match data with
  | none => (.error .invalidPayload, db)
  | some d =>
    match pyPathComponents path with
    | [] => (.error .serverError, db)
    | b :: rest =>
      let col := getCol db b
      match rest with
      | r :: fs =>
        let nSegs := mongoSegs (nestedKeyStr fs)
        let pSegs := mongoSegs (parentKeyStr fs)
        (match findRec col r pSegs with
         | some rc =>
             (match setPath rc.val nSegs d with
              | some nv =>
                  (.ok d,
                   setCol db b
                     (replaceRecVal (fun x => x.id == r && (getPath x.val pSegs).isSome) nv col))
              | none => (.error .serverError, db))
         | none =>
             (match insertOneRec col ⟨r, wrapSegs fs d⟩ with
              | .ok c' => (.ok d, setCol db b c')
              | .error e => (.error e, db)))
      | [] =>
        let db1 := setCol (dropCol db b) b []
        match d with
        | .arr xs =>
            (match insertManyRecs (xs.enum.map (fun p => Rec.mk (natToDec p.1) p.2)) with
             | .ok ds => (.ok d, setCol db1 b ds)
             | .error e => (.error e, db1))
        | .obj fs0 =>
            (match insertManyRecs (fs0.map (fun kv => Rec.mk kv.1 kv.2)) with
             | .ok ds => (.ok d, setCol db1 b ds)
             | .error e => (.error e, db1))
        | _ => (.error .invalidPayload, db1)

/-- post_data_v2: create under a generated id.  An absent payload returns
the generated id without touching the store; at bucket level the payload
is inserted as a fresh record; at record level an existing parent gets the
payload set under a child field named by the generated id, and a missing
parent leads to an insert whose record id is the generated id. -/
def post_data_v2 (db : DB) (path : String) (data : Option J) (rid : String) : Except Err J × DB :=
  match pyPathComponents path with
  | [] => (.error .serverError, db)
  | b :: rest =>
    match data with
    | none => (.ok (J.obj [("name", .str rid)]), db)
    | some d =>
      let col := getCol db b
      match rest with
      | r :: fs =>
        let pSegs := mongoSegs (parentKeyStr fs)
        (match findRec col r pSegs with
         | some rc =>
             (match setPath rc.val (childKeySegs fs rid) d with
              | some nv =>
                  (.ok (J.obj [("name", .str rid)]),
                   setCol db b
                     (replaceRecVal (fun x => x.id == r && (getPath x.val pSegs).isSome) nv col))
              | none => (.error .serverError, db))
         | none =>
             (match insertOneRec col ⟨rid, wrapSegs fs d⟩ with
              | .ok c' => (.ok (J.obj [("name", .str rid)]), setCol db b c')
              | .error e => (.error e, db)))
      | [] =>
          (match insertOneRec col ⟨rid, d⟩ with
           | .ok c' => (.ok (J.obj [("name", .str rid)]), setCol db b c')
           | .error e => (.error e, db))

/-- post_data_root_v2: create a fresh collection named by the generated
id and insert one record per top-level key of the payload; an absent
payload is a 422. -/
def post_data_root_v2 (db : DB) (data : Option (List (String × J))) (newName : String) : Except Err J × DB :=
  match data with
  | none => (.error .invalidPayload, db)
  | some fs0 =>
    let db1 := setCol db newName []
    match insertManyRecs (fs0.map (fun kv => Rec.mk kv.1 kv.2)) with
    | .ok ds => (.ok (J.obj [("name", .str newName)]), setCol db1 newName ds)
    | .error e => (.error e, db1)

/-- setdefault walk of unwrap_path_to_dict: walk all key parts but the
last, creating empty dicts, and assign at the last part; descending into a
non-dict is a TypeError. -/
def setdefaultWalk : J → List String → J → Option J
  | .obj fs, [k], v => some (.obj (objUpsert k v fs))
  | .obj fs, k :: k' :: ks, v =>
      let child := (lookupField k fs).getD (J.obj [])
      (match setdefaultWalk child (k' :: ks) v with
       | some child' => some (.obj (objUpsert k child' fs))
       | none => none)
  | _, _, _ => none

/-- unwrap_path_to_dict: fold the flat dict with slash-separated keys into
a nested dict. -/
def unwrap_path_to_dict (d : List (String × J)) : Option J :=
  d.foldl
    (fun acc kv =>
      match acc with
      | some j => setdefaultWalk j (pySplitChar '/' kv.1) kv.2
      | none => none)
    (some (J.obj []))

/-- update_one with upsert=True matched on _fm_id carrying a multi-key
$set: an existing record has every setter applied (modelled by folding
the single atomic $set over its keys in order), a missing record is
materialized by applying the setters to an empty value. -/
def upsertMultiSet (c : List Rec) (id : String) (setters : List (List String × J)) : Except Err (List Rec) :=
  match c.find? (fun rc => rc.id == id) with
  | some rc =>
      (match setters.foldl
          (fun acc sv =>
            match acc with
            | some w => setPath w sv.1 sv.2
            | none => none)
          (some rc.val) with
       | some nv => .ok (replaceRecVal (fun x => x.id == id) nv c)
       | none => .error .serverError)
  | none =>
      (match setters.foldl
          (fun acc sv =>
            match acc with
            | some w => setPath w sv.1 sv.2
            | none => none)
          (some (J.obj [])) with
       | some nv => .ok (c ++ [⟨id, nv⟩])
       | none => .error .serverError)

/-- The per-key upsert loop of the bucket-level patch when some key holds
a slash: the first path part names the record, deeper parts form a dotted
$set; a plain key sets _fm_val fields of a dict payload or _fm_val
itself otherwise.  Executed sequentially; the first MongoDB failure
aborts the request with the earlier upserts already applied. -/
def patchRootLoop : List (String × J) → List Rec → Except Err (List Rec)
  | [], c => .ok c
  | (k, v) :: rest, c =>
      let kc := pyPathComponents k
      let id := kc.headD ""
      let res :=
        match kc with
        | _ :: _ :: _ =>
            upsertMultiSet c id [(mongoSegs (pyJoin '.' (kc.drop 1)), v)]
        | _ =>
            (match v with
             | .obj vfs =>
                 upsertMultiSet c id (vfs.map (fun kv : String × J => (pySplitChar '.' kv.1, kv.2)))
             | _ => upsertMultiSet c id [([], v)])
      match res with
      | .ok c' => patchRootLoop rest c'
      | .error e => .error e

/-- The whole-record upsert loop of the bucket-level patch when no key
holds a slash: each value (a dict unwrapped from its slash keys, anything
else verbatim) replaces _fm_val of the record named by the key. -/
def patchPlainLoop : List (String × J) → List Rec → Except Err (List Rec)
  | [], c => .ok c
  | (k, v) :: rest, c =>
      let v' :=
        match v with
        | .obj vfs => unwrap_path_to_dict vfs
        | other => some other
      match v' with
      | none => .error .serverError
      | some w =>
          (match upsertMultiSet c k [([], w)] with
           | .ok c' => patchPlainLoop rest c'
           | .error e => .error e)

/-- update_data_v2: shallow merge.  At record level an existing nested_key
leads to one $set per top-level patch key below it (slashes in keys
becoming dots); a missing one leads to an insert of the wrapped,
slash-unwrapped payload.  At bucket level the loops above apply. -/
def update_data_v2 (db : DB) (path : String) (data : List (String × J)) : Except Err J × DB :=
  match pyPathComponents path with
  | [] => (.error .serverError, db)
  | b :: rest =>
    let col := getCol db b
    match rest with
    | r :: fs =>
      let pSegs := mongoSegs (parentKeyStr fs)
      (match findRec col r pSegs with
       | some rc =>
           (match data.foldl
               (fun acc kv =>
                 match acc with
                 | some w => setPath w (patchKeySegs fs kv.1) kv.2
                 | none => none)
               (some rc.val) with
            | some nv =>
                (.ok (J.obj data),
                 setCol db b
                   (replaceRecVal (fun x => x.id == r && (getPath x.val pSegs).isSome) nv col))
            | none => (.error .serverError, db))
       | none =>
           let wrapped := wrapSegs fs (J.obj data)
           let unwrapped :=
             match wrapped with
             | .obj wfs => unwrap_path_to_dict wfs
             | other => some other
           (match unwrapped with
            | none => (.error .serverError, db)
            | some u =>
                (match insertOneRec col ⟨r, u⟩ with
                 | .ok c' => (.ok (J.obj data), setCol db b c')
                 | .error e => (.error e, db))))
    | [] =>
      if data.any (fun kv => kv.1.toList.contains '/') then
        (match patchRootLoop data col with
         | .ok c' => (.ok (J.obj data), setCol db b c')
         | .error e => (.error e, db))
      else
        (match patchPlainLoop data col with
         | .ok c' => (.ok (J.obj data), setCol db b c')
         | .error e => (.error e, db))

/-- delete_data_v2: remove.  A missing collection returns success without
touching anything; a missing record or dotted path inside an existing
collection is a 500; otherwise the dotted path is unset, the record is
deleted only when the whole _fm_val field itself was unset (the only way
the document shrinks to the two fields _id and _fm_id), and an emptied
collection is dropped. -/
def delete_data_v2 (db : DB) (path : String) : Except Err J × DB :=
  match pyPathComponents path with
  | [] => (.error .serverError, db)
  | b :: rest =>
    if colExists db b then
      match rest with
      | r :: fs =>
        let col := getCol db b
        let segs := mongoSegs (nestedKeyStr fs)
        (match findRec col r segs with
         | none => (.error .serverError, db)
         | some rc =>
             let newVal : Option J := if segs.isEmpty then none else some (unsetPath rc.val segs)
             let col' :=
               match newVal with
               | none => removeRec (fun x => x.id == r && (getPath x.val segs).isSome) col
               | some nv => replaceRecVal (fun x => x.id == r && (getPath x.val segs).isSome) nv col
             if col'.isEmpty then (.ok .null, dropCol db b)
             else (.ok .null, setCol db b col'))
      | [] => (.ok .null, dropCol db b)
    else (.ok .null, db)

/-! ## The v1 delete endpoint (single generic collection, documents keyed
directly by the path components) -/

/-- Modelled from the spec: the module app.core.settings is not part of
the sources under study; it only supplies the transport route prefix that
the v1 endpoints strip from the raw path (transport plumbing that the
spec scopes out).  The conventional value is used; the theorems below do
not depend on it, since their paths do not contain it. -/
def API_V1_PREFIX : String := "/api/v1"

/-- Replace the first document (as a value) satisfying the predicate. -/
def replaceFirstBy (p : α → Bool) (nv : α) : List α → List α
  | [] => []
  | x :: rest => if p x then nv :: rest else x :: replaceFirstBy p nv rest

/-- Remove the first document satisfying the predicate. -/
def removeFirstBy (p : α → Bool) : List α → List α
  | [] => []
  | x :: rest => if p x then rest else x :: removeFirstBy p rest

/-- delete_data (v1): the dotted key joins all path components; a missing
structure is a 404; otherwise the key is unset on the first document that
carries it, and a document reduced to its _id alone is deleted. -/
def delete_data (col : List J) (path : String) : Except Err (List J) :=
  let p2 := pyReplaceStr path API_V1_PREFIX ""
  let comps := pyPathComponents p2
  let segs := pySplitChar '.' (pyJoin '.' comps)
  match col.find? (fun d => (getPath d segs).isSome) with
  | none => .error .notFound
  | some d =>
      let d' := unsetPath d segs
      (match d' with
       | .obj [] => .ok (removeFirstBy (fun x => (getPath x segs).isSome) col)
       | _ => .ok (replaceFirstBy (fun x => (getPath x segs).isSome) d' col))

/-! ## Lemmas: decimal printing parses back, hence generated record ids
are distinct -/

theorem natGo_append (l1 l2 : List Char) (acc : Nat) :
    natOfSeg?.go (l1 ++ l2) acc =
      match natOfSeg?.go l1 acc with
      | some v => natOfSeg?.go l2 v
      | none => none := by
  induction l1 generalizing acc with
  | nil => simp [natOfSeg?.go]
  | cons c cs ih =>
      simp only [List.cons_append, natOfSeg?.go]
      cases digitVal? c with
      | none => simp
      | some d => simpa using ih (acc * 10 + d)

theorem digitVal_decDigitChar (d : Nat) (h : d < 10) :
    digitVal? (decDigitChar d) = some d := by
  interval_cases d <;> decide

theorem natGo_natToDecAux (fuel : Nat) :
    ∀ n acc, n < 10 ^ fuel →
      natOfSeg?.go (natToDecAux fuel n) acc =
        some (acc * 10 ^ (natToDecAux fuel n).length + n) := by
  induction fuel with
  | zero =>
      intro n acc h
      have hn : n = 0 := by omega
      subst hn
      simp [natToDecAux, natOfSeg?.go]
  | succ fuel ih =>
      intro n acc h
      by_cases hlt : n < 10
      · simp only [natToDecAux, if_pos hlt, natOfSeg?.go,
          digitVal_decDigitChar n hlt, List.length_cons, List.length_nil]
        simp [pow_one]
      · have hdiv : n / 10 < 10 ^ fuel := by
          have h10 : (0:Nat) < 10 := by decide
          rw [Nat.div_lt_iff_lt_mul h10]
          calc n < 10 ^ (fuel + 1) := h
            _ = 10 ^ fuel * 10 := by rw [pow_succ]
        simp only [natToDecAux, if_neg hlt]
        rw [natGo_append, ih (n / 10) acc hdiv]
        have hmod : n % 10 < 10 := Nat.mod_lt _ (by decide)
        simp only [natOfSeg?.go, digitVal_decDigitChar _ hmod,
          List.length_append, List.length_cons, List.length_nil]
        have hdm : n / 10 * 10 + n % 10 = n := by
          have := Nat.div_add_mod n 10
          omega
        have hp : 10 ^ ((natToDecAux fuel (n / 10)).length + 1)
            = 10 ^ (natToDecAux fuel (n / 10)).length * 10 := pow_succ 10 _
        rw [hp]
        generalize (10 : Nat) ^ (natToDecAux fuel (n / 10)).length = P
        congr 1
        have : acc * P * 10 + (n / 10 * 10 + n % 10) = acc * (P * 10) + n := by
          rw [hdm]; ring
        omega

theorem natToDecAux_ne_nil (fuel n : Nat) : natToDecAux (fuel + 1) n ≠ [] := by
  simp only [natToDecAux]
  split
  · simp
  · simp

theorem natOfSeg_natToDec (n : Nat) : natOfSeg? (natToDec n) = some n := by
  have hpow : n < 10 ^ (n + 1) := by
    calc n < 10 ^ n := Nat.lt_pow_self (by decide) n
      _ ≤ 10 ^ (n + 1) := Nat.pow_le_pow_right (by decide) (Nat.le_succ n)
  have hgo := natGo_natToDecAux (n + 1) n 0 hpow
  have hne := natToDecAux_ne_nil n n
  unfold natOfSeg? natToDec
  cases hL : natToDecAux (n + 1) n with
  | nil => exact absurd hL hne
  | cons c cs =>
      show (match (String.mk (c :: cs)).toList with
            | [] => none
            | l => natOfSeg?.go l 0) = some n
      rw [hL] at hgo
      simpa using hgo

theorem natToDec_injective : Function.Injective natToDec := by
  intro m n h
  have h1 := natOfSeg_natToDec m
  rw [h, natOfSeg_natToDec] at h1
  exact (Option.some_inj.mp h1).symm

theorem enumIds_nodup (xs : List J) :
    (colIds (xs.enum.map (fun p => Rec.mk (natToDec p.1) p.2))).Nodup := by
  have : colIds (xs.enum.map (fun p => Rec.mk (natToDec p.1) p.2))
      = (xs.enum.map Prod.fst).map natToDec := by
    simp only [colIds, List.map_map]
    rfl
  rw [this, List.enum_map_fst]
  exact (List.nodup_range _).map natToDec_injective

/-! ## Lemmas: object field lookup and dict building -/

theorem lookupField_objUpsert_self (k : String) (v : J) (fs : List (String × J)) :
    lookupField k (objUpsert k v fs) = some v := by
  induction fs with
  | nil => simp [objUpsert, lookupField]
  | cons kv rest ih =>
      obtain ⟨k', v'⟩ := kv
      by_cases h : k' = k
      · subst h
        simp [objUpsert, lookupField]
      · simp only [objUpsert, lookupField, beq_iff_eq, if_neg h]
        exact ih

theorem lookupField_objUpsert_ne (k k' : String) (v : J) (fs : List (String × J))
    (h : k' ≠ k) : lookupField k' (objUpsert k v fs) = lookupField k' fs := by
  induction fs with
  | nil => simp [objUpsert, lookupField, beq_iff_eq, Ne.symm h]
  | cons kv rest ih =>
      obtain ⟨k0, v0⟩ := kv
      by_cases h0 : k0 = k
      · subst h0
        simp [objUpsert, lookupField, beq_iff_eq, Ne.symm h]
      · simp only [objUpsert, beq_iff_eq, if_neg h0, lookupField]
        by_cases h1 : k0 = k'
        · simp [h1]
        · simp only [beq_iff_eq, if_neg h1]
          exact ih

theorem lookupField_append_of_none (k : String) (fs l : List (String × J))
    (h : lookupField k fs = none) :
    lookupField k (fs ++ l) = lookupField k l := by
  induction fs with
  | nil => simp
  | cons kv rest ih =>
      obtain ⟨k0, v0⟩ := kv
      simp only [lookupField] at h ⊢
      by_cases h0 : k0 = k
      · simp [h0] at h
      · simp only [beq_iff_eq, if_neg h0] at h ⊢
        exact ih h

theorem lookupField_eq_none_iff (k : String) (fs : List (String × J)) :
    lookupField k fs = none ↔ k ∉ fs.map Prod.fst := by
  induction fs with
  | nil => simp [lookupField]
  | cons kv rest ih =>
      obtain ⟨k0, v0⟩ := kv
      simp only [lookupField, List.map_cons, List.mem_cons]
      by_cases h0 : k0 = k
      · simp [h0]
      · simp only [beq_iff_eq, if_neg h0]
        rw [ih]
        constructor
        · intro h hmem
          rcases hmem with h1 | h1
          · exact h0 h1.symm
          · exact h h1
        · intro h h1
          exact h (Or.inr h1)

theorem objUpsert_of_not_mem (k : String) (v : J) (fs : List (String × J))
    (h : lookupField k fs = none) : objUpsert k v fs = fs ++ [(k, v)] := by
  induction fs with
  | nil => simp [objUpsert]
  | cons kv rest ih =>
      obtain ⟨k0, v0⟩ := kv
      simp only [lookupField] at h
      by_cases h0 : k0 = k
      · simp [h0] at h
      · simp only [objUpsert, beq_iff_eq, if_neg h0, List.cons_append] at *
        rw [ih h]

theorem foldl_objUpsert_append (l : List (String × J)) :
    ∀ acc, (acc.map Prod.fst ++ l.map Prod.fst).Nodup →
      l.foldl (fun a kv => objUpsert kv.1 kv.2 a) acc = acc ++ l := by
  induction l with
  | nil => intro acc _; simp
  | cons kv rest ih =>
      intro acc hnd
      obtain ⟨k, v⟩ := kv
      simp only [List.map_cons] at hnd
      have hk : k ∉ acc.map Prod.fst := by
        intro hmem
        exact (List.nodup_append.mp hnd).2.2 hmem (List.mem_cons_self k _)
      rw [List.foldl_cons,
        objUpsert_of_not_mem k v acc ((lookupField_eq_none_iff k acc).mpr hk)]
      have hnd' : ((acc ++ [(k, v)]).map Prod.fst ++ rest.map Prod.fst).Nodup := by
        rw [List.append_cons] at hnd
        simpa using hnd
      rw [ih (acc ++ [(k, v)]) hnd']
      simp

theorem dictOfPairs_eq_self (l : List (String × J)) (h : (l.map Prod.fst).Nodup) :
    dictOfPairs l = l := by
  have := foldl_objUpsert_append l [] (by simpa using h)
  simpa [dictOfPairs] using this

theorem buildResult_eq_map (docs : List Rec) (h : (colIds docs).Nodup) :
    buildResult docs = docs.map (fun r => (r.id, r.val)) := by
  unfold buildResult
  apply dictOfPairs_eq_self
  have : (docs.map (fun r => (r.id, r.val))).map Prod.fst = colIds docs := by
    simp only [colIds, List.map_map]
    rfl
  rw [this]
  exact h

theorem lookupField_eq_of_perm {l₁ l₂ : List (String × J)} (h : l₁.Perm l₂)
    (hnd : (l₁.map Prod.fst).Nodup) (k : String) :
    lookupField k l₁ = lookupField k l₂ := by
  induction h with
  | nil => rfl
  | cons x h ih =>
      obtain ⟨k0, v0⟩ := x
      simp only [lookupField]
      by_cases h0 : k0 = k
      · simp [h0]
      · simp only [beq_iff_eq, if_neg h0]
        exact ih (by simpa using (List.nodup_cons.mp (by simpa using hnd)).2)
  | swap x y l =>
      obtain ⟨kx, vx⟩ := x
      obtain ⟨ky, vy⟩ := y
      simp only [lookupField]
      by_cases hx : kx = k
      · by_cases hy : ky = k
        · exfalso
          simp only [List.map_cons, List.nodup_cons, List.mem_cons] at hnd
          exact hnd.1 (Or.inl (by rw [hx, hy]))
        · simp [hx, hy]
      · by_cases hy : ky = k
        · simp [hx, hy]
        · simp [hx, hy]
  | trans h1 h2 ih1 ih2 =>
      rw [ih1 hnd, ih2]
      have : _ := h1.map Prod.fst
      exact this.nodup hnd

/-! ## Lemmas: dotted-path get after set -/

theorem getPath_buildNested (segs : List String) (x : J) :
    getPath (buildNested segs x) segs = some x := by
  induction segs with
  | nil => simp [getPath, buildNested]
  | cons k ks ih =>
      show getPath (J.obj [(k, buildNested ks x)]) (k :: ks) = some x
      simp only [getPath, lookupField, beq_self_eq_true, if_pos]
      exact ih

theorem padSet_get (xs : List J) (i : Nat) (v : J) (h : xs.length ≤ i) :
    (padSet xs i v).get? i = some v := by
  unfold padSet
  rw [List.append_assoc, List.get?_eq_getElem?,
    List.getElem?_append_right (by omega : xs.length ≤ i)]
  rw [List.getElem?_append_right (by simp)]
  simp

theorem getPath_setPath (segs : List String) :
    ∀ (v x v' : J), setPath v segs x = some v' → getPath v' segs = some x := by
  induction segs with
  | nil =>
      intro v x v' h
      simp only [setPath, Option.some_inj] at h
      subst h
      simp [getPath]
  | cons k ks ih =>
      intro v x v' h
      cases v with
      | obj fs =>
          cases hl : lookupField k fs with
          | some u =>
              simp only [setPath, hl] at h
              cases hs : setPath u ks x with
              | some nu =>
                  simp only [hs, Option.some_inj] at h
                  subst h
                  simp only [getPath, lookupField_objUpsert_self]
                  exact ih u x nu hs
              | none => simp [hs] at h
          | none =>
              simp only [setPath, hl, Option.some_inj] at h
              subst h
              simp only [getPath,
                lookupField_append_of_none k fs [(k, buildNested ks x)] hl,
                lookupField, beq_self_eq_true, if_pos]
              exact getPath_buildNested ks x
      | arr xs =>
          cases hn : natOfSeg? k with
          | some i =>
              cases hg : xs.get? i with
              | some u =>
                  simp only [setPath, hn, hg] at h
                  cases hs : setPath u ks x with
                  | some nu =>
                      simp only [hs, Option.some_inj] at h
                      subst h
                      have hilen : i < xs.length := by
                        by_contra hc
                        rw [List.get?_eq_none.mpr (by omega)] at hg
                        exact Option.noConfusion hg
                      simp only [getPath, hn, List.get?_eq_getElem?,
                        List.getElem?_set_self (by simpa using hilen)]
                      exact ih u x nu hs
                  | none => simp [hs] at h
              | none =>
                  simp only [setPath, hn, hg, Option.some_inj] at h
                  subst h
                  have hilen : xs.length ≤ i := List.get?_eq_none.mp hg
                  simp only [getPath, hn, padSet_get xs i _ hilen]
                  exact getPath_buildNested ks x
          | none => simp [setPath, hn] at h
      | null => exact absurd h (by simp [setPath])
      | bool b => exact absurd h (by simp [setPath])
      | num n => exact absurd h (by simp [setPath])
      | str s => exact absurd h (by simp [setPath])

/-! ## Lemmas: a Mongo-resolvable path is Python-traversable -/

theorem pyIntOfString_of_natOfSeg (s : String) (n : Nat) (h : natOfSeg? s = some n) :
    pyIntOfString? s = some (n : Int) := by
  unfold pyIntOfString?
  cases hL : s.toList with
  | nil => rw [natOfSeg?, hL] at h; exact absurd h (by simp)
  | cons c cs =>
      have hcd : (digitVal? c).isSome := by
        rw [natOfSeg?, hL] at h
        simp only [natOfSeg?.go] at h
        cases hd : digitVal? c with
        | none => rw [hd] at h; exact absurd h (by simp)
        | some d => simp
      have hcm : c ≠ '-' := by
        intro hc
        rw [hc] at hcd
        simp [digitVal?] at hcd
      have hcp : c ≠ '+' := by
        intro hc
        rw [hc] at hcd
        simp [digitVal?] at hcd
      split
      · rename_i rest heq
        injection heq with h1 h2
        exact absurd h1 hcm
      · rename_i rest heq
        injection heq with h1 h2
        exact absurd h1 hcp
      · rw [h]

theorem pyIndex_natCast (xs : List J) (n : Nat) : pyIndex xs (n : Int) = xs.get? n := by
  unfold pyIndex
  rw [if_pos (by exact_mod_cast Int.natCast_nonneg n)]
  simp

theorem getPath_pyTraverse (segs : List String) :
    ∀ (v x : J), getPath v segs = some x → pyTraverse v segs = .ok x := by
  induction segs with
  | nil =>
      intro v x h
      simp only [getPath, Option.some_inj] at h
      subst h
      simp [pyTraverse]
  | cons k ks ih =>
      intro v x h
      cases v with
      | obj fs =>
          cases hl : lookupField k fs with
          | some u =>
              simp only [getPath, hl] at h
              simp only [pyTraverse, hl]
              exact ih u x h
          | none => simp [getPath, hl] at h
      | arr xs =>
          cases hn : natOfSeg? k with
          | some i =>
              cases hg : xs.get? i with
              | some u =>
                  simp only [getPath, hn, hg] at h
                  simp only [pyTraverse, pyIntOfString_of_natOfSeg k i hn,
                    pyIndex_natCast, hg]
                  exact ih u x h
              | none =>
                  rw [List.get?_eq_getElem?] at hg
                  simp [getPath, hn, hg] at h
          | none => simp [getPath, hn] at h
      | null => simp [getPath] at h
      | bool b => simp [getPath] at h
      | num n => simp [getPath] at h
      | str s => simp [getPath] at h

/-! ## Lemmas: collection plumbing -/

theorem getCol_setCol (db : DB) (b : String) (c : List Rec) :
    getCol (setCol db b c) b = c := by
  show (colLookup b (setColList b c db.cols)).getD [] = c
  induction db.cols with
  | nil => simp [setColList, colLookup]
  | cons nc rest ih =>
      obtain ⟨n, c0⟩ := nc
      by_cases h : n = b
      · simp [setColList, colLookup, h]
      · simp only [setColList, colLookup, beq_iff_eq, if_neg h]
        exact ih

theorem findRec_replaceRecVal (r : String) (pSegs nSegs : List String)
    (hps : pSegs = [] ∨ pSegs = nSegs) (nv : J)
    (hnv : (getPath nv nSegs).isSome = true) :
    ∀ (col : List Rec) (rc : Rec), findRec col r pSegs = some rc →
      findRec (replaceRecVal (fun x => x.id == r && (getPath x.val pSegs).isSome) nv col) r nSegs
        = some ⟨r, nv⟩ := by
  intro col
  induction col with
  | nil => intro rc h; simp [findRec] at h
  | cons h0 rest ih =>
      intro rc hfind
      cases hp : (h0.id == r && (getPath h0.val pSegs).isSome) with
      | true =>
          have hid : h0.id = r := by
            have := (Bool.and_eq_true _ _).mp hp
            exact beq_iff_eq.mp this.1
          have hrw : replaceRecVal (fun x => x.id == r && (getPath x.val pSegs).isSome) nv (h0 :: rest)
              = ⟨h0.id, nv⟩ :: rest := by
            simp [replaceRecVal, hp]
          rw [hrw]
          simp only [findRec, List.find?_cons]
          have hpred : ((⟨h0.id, nv⟩ : Rec).id == r && (getPath (⟨h0.id, nv⟩ : Rec).val nSegs).isSome) = true := by
            simp [hid, hnv]
          rw [hpred]
          simp [hid]
      | false =>
          have hrw : replaceRecVal (fun x => x.id == r && (getPath x.val pSegs).isSome) nv (h0 :: rest)
              = h0 :: replaceRecVal (fun x => x.id == r && (getPath x.val pSegs).isSome) nv rest := by
            simp [replaceRecVal, hp]
          rw [hrw]
          simp only [findRec, List.find?_cons, hp] at hfind
          have hread : (h0.id == r && (getPath h0.val nSegs).isSome) = false := by
            cases hq : (h0.id == r) with
            | false => simp [hq]
            | true =>
                have hgp : (getPath h0.val pSegs).isSome = false := by
                  cases hr : (getPath h0.val pSegs).isSome with
                  | false => rfl
                  | true => rw [hq, hr] at hp; simp at hp
                rcases hps with h | h
                · rw [h] at hgp
                  simp [getPath] at hgp
                · rw [h] at hgp
                  simp [hq, hgp]
          simp only [findRec, List.find?_cons, hread]
          exact ih rc hfind

theorem findRec_append_fresh (col : List Rec) (r : String) (w : J) (nSegs : List String)
    (hr : r ∉ colIds col) (hw : (getPath w nSegs).isSome = true) :
    findRec (col ++ [⟨r, w⟩]) r nSegs = some ⟨r, w⟩ := by
  induction col with
  | nil =>
      simp only [List.nil_append, findRec, List.find?_cons]
      have : ((⟨r, w⟩ : Rec).id == r && (getPath (⟨r, w⟩ : Rec).val nSegs).isSome) = true := by
        simp [hw]
      rw [this]
  | cons h0 rest ih =>
      have hid : h0.id ≠ r := by
        intro hc
        exact hr (by simp [colIds, hc])
      have hrest : r ∉ colIds rest := by
        intro hc
        exact hr (by simp [colIds] at hc ⊢; exact Or.inr hc)
      simp only [List.cons_append, findRec, List.find?_cons]
      have : (h0.id == r && (getPath h0.val nSegs).isSome) = false := by
        simp [hid]
      rw [this]
      exact ih hrest

/-! ## Lemmas: plain reads -/

theorem read_record_path (db : DB) (p b r : String) (fs : List String)
    (hcomps : pyPathComponents p = b :: r :: fs)
    (hsegs : mongoSegs (nestedKeyStr fs) = fs)
    (rc : Rec) (hfind : findRec (getCol db b) r fs = some rc)
    (x : J) (hget : getPath rc.val fs = some x) :
    query_data_v2 db p none none none none none none = .ok x := by
  unfold query_data_v2
  have hv : validationFails none none none none none none = none := rfl
  have htrav := getPath_pyTraverse fs rc.val x hget
  simp only [findRec] at hfind
  simp only [hv, hcomps, hsegs, hfind, htrav]

theorem read_bucket_plain (db : DB) (p b : String)
    (hcomps : pyPathComponents p = [b])
    (hnd : (colIds (getCol db b)).Nodup) :
    query_data_v2 db p none none none none none none
      = .ok (.obj ((idSort false (getCol db b)).map (fun r => (r.id, r.val)))) := by
  unfold query_data_v2
  have hv : validationFails none none none none none none = none := rfl
  rw [hv, hcomps]
  have hnd' : (colIds (idSort false (getCol db b))).Nodup := by
    have hperm : (idSort false (getCol db b)).Perm (getCol db b) :=
      List.perm_insertionSort idLe (getCol db b)
    exact ((hperm.map Rec.id).symm).nodup hnd
  have hlim : applyMongoLimit none none (idSort false (getCol db b))
      = .ok (idSort false (getCol db b)) := rfl
  simp only [Option.isSome_none, Bool.or_self, hlim, buildResult_eq_map _ hnd']

/-! ## C2: replace followed by read -/

/-- Claim C2 (amended): for a path with record depth whose field segments
survive the dotted-key reconstruction unchanged, a successful replace
followed by a parameterless read returns exactly the written value; at a
single-segment (whole bucket) path the read returns a mapping: for a
mapping payload one with exactly the same key bindings, and for a
sequence payload (which replace accepts) the mapping binding the decimal
index strings to the elements. -/
theorem put_then_read_v2 (db : DB) (p : String) (v : J) (db' : DB) (b r : String) (fs : List String)
    (hok : put_data_v2 db p (some v) = (.ok v, db')) :
    (pyPathComponents p = b :: r :: fs → mongoSegs (nestedKeyStr fs) = fs →
      query_data_v2 db' p none none none none none none = .ok v) ∧
    (pyPathComponents p = [b] →
      ∃ l, query_data_v2 db' p none none none none none none = .ok (.obj l) ∧
        (∀ fs0, v = .obj fs0 → ∀ k, lookupField k l = lookupField k fs0) ∧
        (∀ xs, v = .arr xs → ∀ k, lookupField k l =
            lookupField k (xs.enum.map (fun q => (natToDec q.1, q.2))))) := by
  constructor
  · intro hcomps hsegs
    unfold put_data_v2 at hok
    simp only [hcomps] at hok
    cases hfind : findRec (getCol db b) r (mongoSegs (parentKeyStr fs)) with
    | some rc =>
        simp only [hfind] at hok
        cases hset : setPath rc.val (mongoSegs (nestedKeyStr fs)) v with
        | none => simp [hset] at hok
        | some nv =>
            simp only [hset, Prod.mk.injEq] at hok
            have hdb : db' = setCol db b
                (replaceRecVal
                  (fun x => x.id == r && (getPath x.val (mongoSegs (parentKeyStr fs))).isSome)
                  nv (getCol db b)) := hok.2.symm
            rw [hsegs] at hset
            have hget : getPath nv fs = some v := getPath_setPath fs rc.val v nv hset
            have hps : mongoSegs (parentKeyStr fs) = [] ∨ mongoSegs (parentKeyStr fs) = fs := by
              by_cases hdl : fs.dropLast.isEmpty
              · left
                unfold parentKeyStr
                rw [if_pos hdl, List.isEmpty_iff.mp hdl]
                rfl
              · right
                unfold parentKeyStr
                rw [if_neg hdl]
                exact hsegs
            have hfr := findRec_replaceRecVal r (mongoSegs (parentKeyStr fs)) fs hps nv
              (by rw [hget]; rfl) (getCol db b) rc hfind
            refine read_record_path db' p b r fs hcomps hsegs ⟨r, nv⟩ ?_ v hget
            rw [hdb, getCol_setCol]
            exact hfr
    | none =>
        simp only [hfind] at hok
        cases hc : (colIds (getCol db b)).contains r with
        | true =>
            have hins : insertOneRec (getCol db b) ⟨r, wrapSegs fs v⟩ = .error .serverError := by
              unfold insertOneRec
              rw [show ((⟨r, wrapSegs fs v⟩ : Rec).id) = r from rfl, hc]
              rfl
            simp [hins] at hok
        | false =>
            have hins : insertOneRec (getCol db b) ⟨r, wrapSegs fs v⟩
                = .ok (getCol db b ++ [⟨r, wrapSegs fs v⟩]) := by
              unfold insertOneRec
              rw [show ((⟨r, wrapSegs fs v⟩ : Rec).id) = r from rfl, hc]
              rfl
            simp only [hins, Prod.mk.injEq] at hok
            have hdb : db' = setCol db b (getCol db b ++ [⟨r, wrapSegs fs v⟩]) := hok.2.symm
            have hget : getPath (wrapSegs fs v) fs = some v := getPath_buildNested fs v
            refine read_record_path db' p b r fs hcomps hsegs ⟨r, wrapSegs fs v⟩ ?_ v hget
            rw [hdb, getCol_setCol]
            exact findRec_append_fresh (getCol db b) r (wrapSegs fs v) fs
              (by
                intro hmem
                rw [List.contains_eq_any_beq] at hc
                have hany : (colIds (getCol db b)).any (fun x => r == x) = true :=
                  List.any_eq_true.mpr ⟨r, hmem, by simp⟩
                rw [hany] at hc
                exact Bool.noConfusion hc)
              (by rw [hget]; rfl)
  · intro hcomps
    unfold put_data_v2 at hok
    simp only [hcomps] at hok
    cases v with
    | obj fs0 =>
        cases him : insertManyRecs (fs0.map (fun kv => Rec.mk kv.1 kv.2)) with
        | error e => simp [him] at hok
        | ok ds =>
            simp only [him, Prod.mk.injEq] at hok
            have hdb : db' = setCol (setCol (dropCol db b) b []) b ds := hok.2.symm
            have hpair : ds = fs0.map (fun kv => Rec.mk kv.1 kv.2) ∧
                (colIds (fs0.map (fun kv => Rec.mk kv.1 kv.2))).Nodup := by
              unfold insertManyRecs at him
              by_cases h1 : (fs0.map (fun kv => Rec.mk kv.1 kv.2)).isEmpty
              · rw [if_pos h1] at him; exact absurd him (by simp)
              · rw [if_neg h1] at him
                by_cases h2 : (colIds (fs0.map (fun kv => Rec.mk kv.1 kv.2))).Nodup
                · rw [if_pos h2] at him
                  exact ⟨((Except.ok.injEq _ _).mp him).symm, h2⟩
                · rw [if_neg h2] at him; exact absurd him (by simp)
            have hds := hpair.1
            have hnd : (colIds ds).Nodup := by rw [hds]; exact hpair.2
            have hcol : getCol db' b = ds := by rw [hdb, getCol_setCol]
            refine ⟨(idSort false ds).map (fun r => (r.id, r.val)), ?_, ?_, ?_⟩
            · have := read_bucket_plain db' p b hcomps (by rw [hcol]; exact hnd)
              rw [hcol] at this
              exact this
            · intro fs1 hv k
              obtain rfl : fs0 = fs1 := by injection hv
              have hperm : ((idSort false ds).map (fun r => (r.id, r.val))).Perm
                  (ds.map (fun r => (r.id, r.val))) :=
                (List.perm_insertionSort idLe ds).map _
              have hmapds : ds.map (fun r => (r.id, r.val)) = fs0 := by
                rw [hds, List.map_map]
                have : ((fun r : Rec => (r.id, r.val)) ∘ fun kv : String × J => Rec.mk kv.1 kv.2)
                    = id := by
                  funext kv
                  rfl
                rw [this, List.map_id]
              have hndk : (((idSort false ds).map (fun r => (r.id, r.val))).map Prod.fst).Nodup := by
                have heq : ((idSort false ds).map (fun r => (r.id, r.val))).map Prod.fst
                    = colIds (idSort false ds) := by
                  simp only [List.map_map]; rfl
                rw [heq]
                exact (((List.perm_insertionSort idLe ds).map Rec.id).symm).nodup hnd
              rw [lookupField_eq_of_perm hperm hndk k, hmapds]
            · intro xs hv
              exact absurd hv (by simp)
    | arr xs =>
        cases him : insertManyRecs (xs.enum.map (fun p => Rec.mk (natToDec p.1) p.2)) with
        | error e => simp [him] at hok
        | ok ds =>
            simp only [him, Prod.mk.injEq] at hok
            have hdb : db' = setCol (setCol (dropCol db b) b []) b ds := hok.2.symm
            have hds : ds = xs.enum.map (fun p => Rec.mk (natToDec p.1) p.2) := by
              unfold insertManyRecs at him
              by_cases h1 : (xs.enum.map (fun p => Rec.mk (natToDec p.1) p.2)).isEmpty
              · rw [if_pos h1] at him; exact absurd him (by simp)
              · rw [if_neg h1] at him
                by_cases h2 : (colIds (xs.enum.map (fun p => Rec.mk (natToDec p.1) p.2))).Nodup
                · rw [if_pos h2] at him
                  exact ((Except.ok.injEq _ _).mp him).symm
                · rw [if_neg h2] at him; exact absurd him (by simp)
            have hnd : (colIds ds).Nodup := by rw [hds]; exact enumIds_nodup xs
            have hcol : getCol db' b = ds := by rw [hdb, getCol_setCol]
            refine ⟨(idSort false ds).map (fun r => (r.id, r.val)), ?_, ?_, ?_⟩
            · have := read_bucket_plain db' p b hcomps (by rw [hcol]; exact hnd)
              rw [hcol] at this
              exact this
            · intro fs1 hv
              exact absurd hv (by simp)
            · intro xs1 hv k
              obtain rfl : xs = xs1 := by injection hv
              have hperm : ((idSort false ds).map (fun r => (r.id, r.val))).Perm
                  (ds.map (fun r => (r.id, r.val))) :=
                (List.perm_insertionSort idLe ds).map _
              have hmapds : ds.map (fun r => (r.id, r.val))
                  = xs.enum.map (fun q => (natToDec q.1, q.2)) := by
                rw [hds, List.map_map]
                rfl
              have hndk : (((idSort false ds).map (fun r => (r.id, r.val))).map Prod.fst).Nodup := by
                have heq : ((idSort false ds).map (fun r => (r.id, r.val))).map Prod.fst
                    = colIds (idSort false ds) := by
                  simp only [List.map_map]; rfl
                rw [heq]
                exact (((List.perm_insertionSort idLe ds).map Rec.id).symm).nodup hnd
              rw [lookupField_eq_of_perm hperm hndk k, hmapds]
    | null => simp at hok
    | bool b0 => simp at hok
    | num n0 => simp at hok
    | str s0 => simp at hok

/-- Claim C2 witness: a concrete replace-then-read at a record-depth path
returns exactly the written value. -/
theorem put_then_read_v2_witness :
    put_data_v2 ⟨[], []⟩ "b/r/x" (some (.num 7))
      = (.ok (.num 7), ⟨[("b", [⟨"r", .obj [("x", .num 7)]⟩])], []⟩) ∧
    query_data_v2 ⟨[("b", [⟨"r", .obj [("x", .num 7)]⟩])], []⟩ "b/r/x"
      none none none none none none = .ok (.num 7) :=
  ⟨rfl, (put_then_read_v2 ⟨[], []⟩ "b/r/x" (.num 7)
      ⟨[("b", [⟨"r", .obj [("x", .num 7)]⟩])], []⟩ "b" "r" ["x"] rfl).1 rfl rfl⟩

/-- Claim C2 counterexample: replace of a bucket with a bare sequence
succeeds, and the subsequent read returns a mapping keyed by decimal
indices, not the sequence. -/
theorem put_list_read_back_as_mapping :
    put_data_v2 ⟨[], []⟩ "b" (some (.arr [.num 10, .num 20]))
      = (.ok (.arr [.num 10, .num 20]), ⟨[("b", [⟨"0", .num 10⟩, ⟨"1", .num 20⟩])], []⟩) ∧
    query_data_v2 ⟨[("b", [⟨"0", .num 10⟩, ⟨"1", .num 20⟩])], []⟩ "b"
      none none none none none none = .ok (.obj [("0", .num 10), ("1", .num 20)]) ∧
    J.obj [("0", .num 10), ("1", .num 20)] ≠ J.arr [.num 10, .num 20] :=
  ⟨rfl, rfl, fun h => J.noConfusion h⟩

/-! ## C1: the orderBy validation gate -/

/-- Claim C1 (amended): when limitToFirst, limitToLast or equalTo is
supplied, or both startAt and endAt are supplied, while orderBy is
absent, both v2 read endpoints fail with InvalidQuery; startAt alone or
endAt alone with orderBy absent is not rejected (the and of the source
binds tighter than its or chain). -/
theorem query_requires_orderBy
    (db : DB) (p : String) (ltf ltl : Option Int) (eq sa ea : Option QP)
    (hcond : ltf.isSome = true ∨ ltl.isSome = true ∨ eq.isSome = true ∨
      (sa.isSome = true ∧ ea.isSome = true)) :
    query_data_v2 db p none ltf ltl eq sa ea = .error .invalidQuery ∧
    query_data_root_v2 db none ltf ltl eq sa ea = .error .invalidQuery := by
  have hb : (ltf.isSome || ltl.isSome || eq.isSome || (sa.isSome && ea.isSome)) = true := by
    rcases hcond with h | h | h | ⟨h1, h2⟩
    · simp [h]
    · simp [h]
    · simp [h]
    · simp [h1, h2]
  have hv : validationFails none ltf ltl eq sa ea = some .invalidQuery := by
    unfold validationFails
    rw [hb]
    simp
  constructor
  · unfold query_data_v2
    rw [hv]
  · unfold query_data_root_v2
    rw [hv]

/-- Claim C1 witness: a concrete query with only limitToFirst supplied and
orderBy absent is rejected with InvalidQuery on the path endpoint and at
the root. -/
theorem query_requires_orderBy_witness :
    query_data_v2 ⟨[], []⟩ "b" none (some 1) none none none none = .error .invalidQuery ∧
    query_data_root_v2 ⟨[], []⟩ none (some 1) none none none none = .error .invalidQuery :=
  query_requires_orderBy ⟨[], []⟩ "b" (some 1) none none none none (Or.inl rfl)

/-- Claim C1 counterexample: startAt supplied alone (endAt, equalTo and
both limits absent) with orderBy absent is not rejected: the root query
answers successfully. -/
theorem startAt_alone_not_rejected :
    query_data_root_v2 ⟨[], []⟩ none none none none (some (.s "a")) none = .ok [] ∧
    (Except.ok ([] : List (String × J)) : Except Err (List (String × J)))
      ≠ .error .invalidQuery :=
  ⟨rfl, fun h => Except.noConfusion h⟩

/-! ## C4: delete-then-empty cleanup -/

/-- Claim C4, evaluated at the failing input: the bucket b holds one
record r whose value has exactly one field f; removing b/r/f succeeds but
leaves the record in place with an empty value (the key-count check of
the source looks for two remaining document fields, while a field-level
unset leaves three: _id, _fm_id and the emptied _fm_val), so a read of
the bucket still lists the record id r. -/
theorem delete_only_field_leaves_record :
    delete_data_v2 ⟨[("b", [⟨"r", .obj [("f", .num 1)]⟩])], []⟩ "b/r/f"
      = (.ok .null, ⟨[("b", [⟨"r", .obj []⟩])], []⟩) ∧
    query_data_v2 ⟨[("b", [⟨"r", .obj []⟩])], []⟩ "b" none none none none none none
      = .ok (.obj [("r", .obj [])]) ∧
    lookupField "r" [("r", J.obj [])] = some (J.obj []) :=
  ⟨rfl, rfl, rfl⟩

/-! ## C5: remove on a missing path -/

/-- Claim C5 (amended): the v1 remove fails with NotFound when no
document carries the dotted path; the v2 remove instead returns success
silently when the bucket does not exist, and fails with the generic
server error (500) when the bucket exists but the record or dotted field
path does not. -/
theorem remove_missing_path_behaviour
    (col : List J) (db : DB) (p : String) (b r : String) (rest fs : List String) :
    ((∀ d ∈ col,
        getPath d (pySplitChar '.'
          (pyJoin '.' (pyPathComponents (pyReplaceStr p API_V1_PREFIX "")))) = none) →
      delete_data col p = .error .notFound) ∧
    (pyPathComponents p = b :: rest → colExists db b = false →
      delete_data_v2 db p = (.ok .null, db)) ∧
    (pyPathComponents p = b :: r :: fs → colExists db b = true →
      findRec (getCol db b) r (mongoSegs (nestedKeyStr fs)) = none →
      delete_data_v2 db p = (.error .serverError, db)) := by
  refine ⟨?_, ?_, ?_⟩
  · intro h
    unfold delete_data
    have hfind : (col.find? (fun d =>
        (getPath d (pySplitChar '.'
          (pyJoin '.' (pyPathComponents (pyReplaceStr p API_V1_PREFIX ""))))).isSome)) = none := by
      rw [List.find?_eq_none]
      intro d hd
      rw [h d hd]
      simp
    simp only [hfind]
  · intro hcomps hex
    unfold delete_data_v2
    simp only [hcomps, hex]
    cases rest <;> simp
  · intro hcomps hex hfind
    unfold delete_data_v2
    simp only [hcomps, hex, hfind]
    simp

/-- Claim C5 witness: concrete instances of all three behaviours. -/
theorem remove_missing_path_witness :
    delete_data [J.obj [("x", .num 1)]] "y" = .error .notFound ∧
    delete_data_v2 ⟨[], []⟩ "nope" = (.ok .null, ⟨[], []⟩) ∧
    delete_data_v2 ⟨[("b", [⟨"r", .obj [("f", .num 1)]⟩])], []⟩ "b/zz"
      = (.error .serverError, ⟨[("b", [⟨"r", .obj [("f", .num 1)]⟩])], []⟩) := by
  refine ⟨?_, ?_, ?_⟩
  · exact (remove_missing_path_behaviour [J.obj [("x", .num 1)]] ⟨[], []⟩ "y"
      "y" "" [] []).1 (by
        intro d hd
        rw [List.mem_singleton] at hd
        subst hd
        rfl)
  · exact (remove_missing_path_behaviour [] ⟨[], []⟩ "nope" "nope" "" [] []).2.1 rfl rfl
  · exact (remove_missing_path_behaviour [] ⟨[("b", [⟨"r", .obj [("f", .num 1)]⟩])], []⟩
      "b/zz" "b" "zz" ["zz"] []).2.2 rfl rfl rfl

/-- Claim C5 counterexample: removing a path whose bucket does not exist
returns success (silently), not NotFound. -/
theorem remove_missing_bucket_silent :
    delete_data_v2 ⟨[], []⟩ "absent" = (.ok .null, ⟨[], []⟩) ∧
    (Except.ok (J.null) : Except Err J) ≠ .error .notFound :=
  ⟨rfl, fun h => Except.noConfusion h⟩

/-! ## C6: create -/

/-- Claim C6 (amended): the root create rejects an absent payload with
InvalidPayload and inserts nothing; the path create with an absent
payload returns the generated id while inserting nothing (it does not
fail); with a payload present, the bucket-level create appends one fresh
record under the generated id and returns that id. -/
theorem create_behaviour (db : DB) (p b rid newName : String) (rest : List String) (v : J) :
    (post_data_root_v2 db none newName = (.error .invalidPayload, db)) ∧
    (pyPathComponents p = b :: rest →
      post_data_v2 db p none rid = (.ok (.obj [("name", .str rid)]), db)) ∧
    (pyPathComponents p = [b] → (colIds (getCol db b)).contains rid = false →
      post_data_v2 db p (some v) rid
        = (.ok (.obj [("name", .str rid)]), setCol db b (getCol db b ++ [⟨rid, v⟩]))) := by
  refine ⟨rfl, ?_, ?_⟩
  · intro hcomps
    unfold post_data_v2
    simp only [hcomps]
  · intro hcomps hc
    unfold post_data_v2
    simp only [hcomps]
    have hins : insertOneRec (getCol db b) ⟨rid, v⟩
        = .ok (getCol db b ++ [⟨rid, v⟩]) := by
      unfold insertOneRec
      rw [show ((⟨rid, v⟩ : Rec).id) = rid from rfl, hc]
      rfl
    simp only [hins]

/-- Claim C6 witness: the three amended behaviours at concrete inputs. -/
theorem create_behaviour_witness :
    post_data_root_v2 ⟨[], []⟩ none "deadbeef" = (.error .invalidPayload, ⟨[], []⟩) ∧
    post_data_v2 ⟨[("b", [⟨"r", .num 1⟩])], []⟩ "b" none "cafe01"
      = (.ok (.obj [("name", .str "cafe01")]), ⟨[("b", [⟨"r", .num 1⟩])], []⟩) ∧
    post_data_v2 ⟨[("b", [⟨"r", .num 1⟩])], []⟩ "b" (some (.num 3)) "cafe01"
      = (.ok (.obj [("name", .str "cafe01")]),
         setCol ⟨[("b", [⟨"r", .num 1⟩])], []⟩ "b" ([⟨"r", .num 1⟩] ++ [⟨"cafe01", .num 3⟩])) := by
  refine ⟨?_, ?_, ?_⟩
  · exact (create_behaviour ⟨[], []⟩ "p" "p" "x" "deadbeef" [] .null).1
  · exact (create_behaviour ⟨[("b", [⟨"r", .num 1⟩])], []⟩ "b" "b" "cafe01" "x" [] .null).2.1 rfl
  · exact (create_behaviour ⟨[("b", [⟨"r", .num 1⟩])], []⟩ "b" "b" "cafe01" "x" []
      (.num 3)).2.2 rfl rfl

/-- Claim C6 counterexample: create at a non-root path with an absent
payload succeeds, returning a generated id, instead of failing with
InvalidPayload; the store is untouched but no error is reported. -/
theorem create_absent_value_succeeds :
    post_data_v2 ⟨[("c6", [⟨"r", .num 1⟩])], []⟩ "c6" none "feed01"
      = (.ok (.obj [("name", .str "feed01")]), ⟨[("c6", [⟨"r", .num 1⟩])], []⟩) ∧
    (Except.ok (J.obj [("name", .str "feed01")]) : Except Err J) ≠ .error .invalidPayload :=
  ⟨rfl, fun h => Except.noConfusion h⟩

/-! ## C7: bucket-level replace payload shapes -/

/-- Claim C7 (amended): at a single-segment (whole bucket) path, replace
accepts keyed mappings and also bare sequences.  A mapping repopulates
the dropped bucket with one record per top-level key; a sequence is
accepted as well and repopulates it with one record per element, the ids
being the decimal index strings; only a scalar payload fails with
InvalidPayload, and it does so only after the bucket has been dropped. -/
theorem bucket_put_payload_shapes (db : DB) (p b : String) (v : J)
    (hcomps : pyPathComponents p = [b]) :
    ((∀ xs, v ≠ J.arr xs) → (∀ fs0, v ≠ J.obj fs0) →
      put_data_v2 db p (some v) = (.error .invalidPayload, setCol (dropCol db b) b [])) ∧
    (∀ fs0, v = J.obj fs0 → fs0 ≠ [] → (fs0.map Prod.fst).Nodup →
      put_data_v2 db p (some v)
        = (.ok v, setCol (setCol (dropCol db b) b []) b
            (fs0.map (fun kv => Rec.mk kv.1 kv.2)))) ∧
    (∀ xs, v = J.arr xs → xs ≠ [] →
      put_data_v2 db p (some v)
        = (.ok v, setCol (setCol (dropCol db b) b []) b
            (xs.enum.map (fun q => Rec.mk (natToDec q.1) q.2)))) := by
  refine ⟨?_, ?_, ?_⟩
  · intro hna hno
    cases v with
    | arr xs => exact absurd rfl (hna xs)
    | obj fs0 => exact absurd rfl (hno fs0)
    | null => unfold put_data_v2; simp only [hcomps]
    | bool b0 => unfold put_data_v2; simp only [hcomps]
    | num n0 => unfold put_data_v2; simp only [hcomps]
    | str s0 => unfold put_data_v2; simp only [hcomps]
  · intro fs0 hv hne hnd
    subst hv
    unfold put_data_v2
    simp only [hcomps]
    have him : insertManyRecs (fs0.map (fun kv => Rec.mk kv.1 kv.2))
        = .ok (fs0.map (fun kv => Rec.mk kv.1 kv.2)) := by
      unfold insertManyRecs
      rw [if_neg (by simp [hne]), if_pos (by
        have : colIds (fs0.map (fun kv => Rec.mk kv.1 kv.2)) = fs0.map Prod.fst := by
          simp only [colIds, List.map_map]; rfl
        rw [this]; exact hnd)]
    simp only [him]
  · intro xs hv hne
    subst hv
    unfold put_data_v2
    simp only [hcomps]
    have him : insertManyRecs (xs.enum.map (fun q => Rec.mk (natToDec q.1) q.2))
        = .ok (xs.enum.map (fun q => Rec.mk (natToDec q.1) q.2)) := by
      unfold insertManyRecs
      rw [if_neg (by simp [hne]), if_pos (enumIds_nodup xs)]
    simp only [him]

/-- Claim C7 witness: a concrete dict repopulates the bucket per key, a
concrete list repopulates it per index, and a concrete scalar is
rejected with InvalidPayload. -/
theorem bucket_put_payload_shapes_witness :
    put_data_v2 ⟨[], []⟩ "w7" (some (.obj [("k", .num 1)]))
      = (.ok (.obj [("k", .num 1)]),
         setCol (setCol (dropCol ⟨[], []⟩ "w7") "w7" []) "w7" [⟨"k", .num 1⟩]) ∧
    put_data_v2 ⟨[], []⟩ "w7" (some (.arr [.num 4, .num 5]))
      = (.ok (.arr [.num 4, .num 5]),
         setCol (setCol (dropCol ⟨[], []⟩ "w7") "w7" []) "w7" [⟨"0", .num 4⟩, ⟨"1", .num 5⟩]) ∧
    put_data_v2 ⟨[], []⟩ "w7" (some (.num 9))
      = (.error .invalidPayload, setCol (dropCol ⟨[], []⟩ "w7") "w7" []) := by
  refine ⟨?_, ?_, ?_⟩
  · exact (bucket_put_payload_shapes ⟨[], []⟩ "w7" "w7" (.obj [("k", .num 1)]) rfl).2.1
      [("k", .num 1)] rfl (by simp) (by simp)
  · exact (bucket_put_payload_shapes ⟨[], []⟩ "w7" "w7" (.arr [.num 4, .num 5]) rfl).2.2
      [.num 4, .num 5] rfl (by simp)
  · exact (bucket_put_payload_shapes ⟨[], []⟩ "w7" "w7" (.num 9) rfl).1
      (fun xs h => J.noConfusion h) (fun fs0 h => J.noConfusion h)

/-- Claim C7 counterexample: a bare sequence at bucket level does not
fail with InvalidPayload: the replace succeeds and returns the
sequence. -/
theorem bucket_put_sequence_accepted :
    put_data_v2 ⟨[], []⟩ "c7" (some (.arr [.num 5]))
      = (.ok (.arr [.num 5]), ⟨[("c7", [⟨"0", .num 5⟩])], []⟩) ∧
    (Except.ok (J.arr [.num 5]) : Except Err J) ≠ .error .invalidPayload :=
  ⟨rfl, fun h => Except.noConfusion h⟩

/-! ## C8: index gating -/

theorem rulesLookup_rulesUpsert_self (p : String) (v : Idx) :
    ∀ rs, rulesLookup p (rulesUpsert p v rs) = some v := by
  intro rs
  induction rs with
  | nil => simp [rulesUpsert, rulesLookup]
  | cons pv rest ih =>
      obtain ⟨p0, v0⟩ := pv
      by_cases h : p0 = p
      · simp [rulesUpsert, rulesLookup, h]
      · simp only [rulesUpsert, rulesLookup, beq_iff_eq, if_neg h]
        exact ih

theorem chStarts_self : ∀ l : List Char, chStarts l l = true := by
  intro l
  induction l with
  | nil => rfl
  | cons a as ih => simp [chStarts, ih]

theorem chOccurs_self (l : List Char) : chOccurs l l = true := by
  cases l with
  | nil => rfl
  | cons a as =>
      unfold chOccurs
      rw [chStarts_self]
      rfl

/-- Claim C8 counterexample: the rule stored for bucket b8 is the string
"page", which names no field age; ordering by age nevertheless passes
the index gate — the Python membership test on a str rule is substring
containment and finds "age" inside "page" — and the query returns data
instead of failing with IndexNotDefined. -/
theorem substring_rule_admits_field :
    query_data_v2 ⟨[("b8", [⟨"r", .obj [("age", .num 4)]⟩])], [("b8", Idx.str "page")]⟩
      "b8" (some "age") none none none none none
      = .ok (J.obj [("r", J.obj [("age", J.num 4)])]) := rfl

/-- Claim C8: a bucket-level query ordering by a plain child field f
fails with IndexNotDefined — an error distinct from NotFound, carrying
the field name and the query path — whenever no index rule is stored
for the bucket scope or the stored payload does not contain f under the
Python membership test (substring containment for a str rule, element
membership for a list rule, key membership for a dict rule), and the
same query succeeds right after set_index stores the string f for that
scope. -/
theorem index_gating (db : DB) (p b f : String)
    (hcomps : pyPathComponents p = [b])
    (hq : stripQuotes f = f)
    (hkey : (f == "\"$key\"") = false) (hval : (f == "\"$value\"") = false)
    (hidx : ∀ idx, check_index db (some b) = some idx → pyInIdx f idx = false) :
    query_data_v2 db p (some f) none none none none none
      = .error (.indexNotDefined f p) ∧
    Err.indexNotDefined f p ≠ Err.notFound ∧
    ∃ j, query_data_v2 (set_index db (some b) (Idx.str f)).2 p (some f)
      none none none none none = .ok j := by
  have hv : ∀ db0 : DB, validationFails (some f) none none none none none = none := fun _ => rfl
  refine ⟨?_, fun h => Err.noConfusion h, ?_⟩
  · unfold query_data_v2
    simp only [hv db, hcomps, hkey, hval, Bool.false_eq_true, if_false, hq]
    cases hci : check_index db (some b) with
    | none => simp only [hci]
    | some idx =>
        simp only [hci, hidx idx hci, Bool.false_eq_true, if_false]
  · unfold query_data_v2
    have hci : check_index (set_index db (some b) (Idx.str f)).2 (some b)
        = some (Idx.str f) := by
      unfold set_index check_index
      simp only [Option.getD_some]
      exact rulesLookup_rulesUpsert_self b (Idx.str f) db.rules
    simp only [hv db, hcomps, hkey, hval, Bool.false_eq_true, if_false, hq, hci]
    have hcon : pyInIdx f (Idx.str f) = true := chOccurs_self f.toList
    simp only [hcon, if_true]
    exact ⟨_, rfl⟩

/-- Claim C8 witness: concretely, ordering by age without any index rule
fails with IndexNotDefined carrying the field and path, and succeeds
after set_index stores the rule "age". -/
theorem index_gating_witness :
    query_data_v2 ⟨[("b8", [⟨"r", .obj [("age", .num 4)]⟩])], []⟩ "b8"
      (some "age") none none none none none = .error (.indexNotDefined "age" "b8") ∧
    ∃ j, query_data_v2
      (set_index ⟨[("b8", [⟨"r", .obj [("age", .num 4)]⟩])], []⟩ (some "b8")
        (Idx.str "age")).2
      "b8" (some "age") none none none none none = .ok j := by
  have h := index_gating ⟨[("b8", [⟨"r", .obj [("age", .num 4)]⟩])], []⟩ "b8" "b8" "age"
    rfl rfl rfl rfl (fun idx hidx => by exact absurd hidx (by simp [check_index, rulesLookup]))
  exact ⟨h.1, h.2.2⟩

/-! ## C3: merge is non-destructive -/

theorem getPath_setPath_child (fs : List String) :
    ∀ (v : J) (kvs : List (String × J)) (k : String) (x : J),
      getPath v fs = some (.obj kvs) →
      ∃ v', setPath v (fs ++ [k]) x = some v' ∧
        getPath v' fs = some (.obj (objUpsert k x kvs)) := by
  induction fs with
  | nil =>
      intro v kvs k x h
      simp only [getPath, Option.some_inj] at h
      subst h
      cases hl : lookupField k kvs with
      | some u =>
          refine ⟨.obj (objUpsert k x kvs), ?_, ?_⟩
          · simp [setPath, hl]
          · simp [getPath]
      | none =>
          refine ⟨.obj (kvs ++ [(k, x)]), ?_, ?_⟩
          · simp [setPath, hl, buildNested]
          · simp [getPath, objUpsert_of_not_mem k x kvs hl]
  | cons f fs' ih =>
      intro v kvs k x h
      cases v with
      | obj gs =>
          cases hl : lookupField f gs with
          | some u =>
              simp only [getPath, hl] at h
              obtain ⟨u', hsu, hgu⟩ := ih u kvs k x h
              refine ⟨.obj (objUpsert f u' gs), ?_, ?_⟩
              · simp [setPath, hl, hsu]
              · simp [getPath, lookupField_objUpsert_self, hgu]
          | none => simp [getPath, hl] at h
      | arr xs =>
          cases hn : natOfSeg? f with
          | some i =>
              cases hg : xs.get? i with
              | some u =>
                  simp only [getPath, hn, hg] at h
                  obtain ⟨u', hsu, hgu⟩ := ih u kvs k x h
                  have hilen : i < xs.length := by
                    by_contra hc
                    rw [List.get?_eq_none.mpr (by omega)] at hg
                    exact Option.noConfusion hg
                  rw [List.get?_eq_getElem?] at hg
                  refine ⟨.arr (xs.set i u'), ?_, ?_⟩
                  · simp [setPath, hn, hg, hsu]
                  · simp only [getPath, hn, List.get?_eq_getElem?,
                      List.getElem?_set_self (by simpa using hilen)]
                    exact hgu
              | none =>
                  rw [List.get?_eq_getElem?] at hg
                  simp [getPath, hn, hg] at h
          | none => simp [getPath, hn] at h
      | null => simp [getPath] at h
      | bool b0 => simp [getPath] at h
      | num n0 => simp [getPath] at h
      | str s0 => simp [getPath] at h

theorem fold_patch_set (fs : List String) (m : List (String × J)) :
    ∀ (v : J) (kvs : List (String × J)),
      getPath v fs = some (.obj kvs) →
      (∀ kv ∈ m, patchKeySegs fs kv.1 = fs ++ [kv.1]) →
      ∃ v', (m.foldl (fun acc kv =>
          match acc with
          | some w => setPath w (patchKeySegs fs kv.1) kv.2
          | none => none) (some v)) = some v' ∧
        getPath v' fs = some (.obj (m.foldl (fun acc kv => objUpsert kv.1 kv.2 acc) kvs)) := by
  induction m with
  | nil => intro v kvs h _; exact ⟨v, rfl, h⟩
  | cons kv rest ih =>
      intro v kvs h hkeys
      obtain ⟨v₁, hset, hget⟩ := getPath_setPath_child fs v kvs kv.1 kv.2 h
      have hk := hkeys kv (List.mem_cons_self _ _)
      rw [List.foldl_cons, List.foldl_cons]
      rw [show (match some v with
            | some w => setPath w (patchKeySegs fs kv.1) kv.2
            | none => none) = setPath v (patchKeySegs fs kv.1) kv.2 from rfl, hk, hset]
      exact ih v₁ (objUpsert kv.1 kv.2 kvs) hget (fun kv' h' => hkeys kv' (List.mem_cons_of_mem _ h'))

theorem lookup_foldl_objUpsert (m : List (String × J)) :
    ∀ (kvs : List (String × J)) (k : String), (m.map Prod.fst).Nodup →
      lookupField k (m.foldl (fun acc kv => objUpsert kv.1 kv.2 acc) kvs)
        = (match lookupField k m with
           | some v => some v
           | none => lookupField k kvs) := by
  induction m with
  | nil => intro kvs k _; simp [lookupField]
  | cons kv rest ih =>
      intro kvs k hnd
      simp only [List.map_cons, List.nodup_cons] at hnd
      rw [List.foldl_cons, ih (objUpsert kv.1 kv.2 kvs) k hnd.2]
      by_cases hk : kv.1 = k
      · subst hk
        have hrest : lookupField kv.1 rest = none := (lookupField_eq_none_iff _ _).mpr hnd.1
        rw [hrest, lookupField_objUpsert_self]
        have : lookupField kv.1 ((kv.1, kv.2) :: rest) = some kv.2 := by
          simp [lookupField]
        rw [this]
      · have h1 : lookupField k ((kv.1, kv.2) :: rest) = lookupField k rest := by
          simp [lookupField, beq_iff_eq, hk]
        rw [h1, lookupField_objUpsert_ne kv.1 k kv.2 kvs (fun he => hk he.symm)]

/-- Claim C3: at an existing record-depth location holding a mapping, a
patch with a plain-keyed mapping m succeeds, and the resulting value at
that location binds each key of m to the patched value while every key
not in m keeps its previous binding (and the rest of the store location
is found again under the same record id). -/
theorem update_merge_frame
    (db : DB) (p b r : String) (fs : List String) (m : List (String × J))
    (rc : Rec) (kvs : List (String × J))
    (hcomps : pyPathComponents p = b :: r :: fs)
    (hps : mongoSegs (parentKeyStr fs) = [] ∨ mongoSegs (parentKeyStr fs) = fs)
    (hkeys : ∀ kv ∈ m, patchKeySegs fs kv.1 = fs ++ [kv.1])
    (hnd : (m.map Prod.fst).Nodup)
    (hfind : findRec (getCol db b) r (mongoSegs (parentKeyStr fs)) = some rc)
    (hval : getPath rc.val fs = some (.obj kvs)) :
    ∃ db' nv,
      update_data_v2 db p m = (.ok (.obj m), db') ∧
      findRec (getCol db' b) r (mongoSegs (parentKeyStr fs)) = some ⟨r, nv⟩ ∧
      getPath nv fs = some (.obj (m.foldl (fun acc kv => objUpsert kv.1 kv.2 acc) kvs)) ∧
      (∀ k, lookupField k (m.foldl (fun acc kv => objUpsert kv.1 kv.2 acc) kvs)
        = (match lookupField k m with
           | some v => some v
           | none => lookupField k kvs)) := by
  obtain ⟨nv, hfold, hget⟩ := fold_patch_set fs m rc.val kvs hval hkeys
  refine ⟨setCol db b
      (replaceRecVal
        (fun x => x.id == r && (getPath x.val (mongoSegs (parentKeyStr fs))).isSome)
        nv (getCol db b)), nv, ?_, ?_, hget, fun k => lookup_foldl_objUpsert m kvs k hnd⟩
  · unfold update_data_v2
    simp only [hcomps, hfind, hfold]
  · rw [getCol_setCol]
    have hnv : (getPath nv (mongoSegs (parentKeyStr fs))).isSome = true := by
      rcases hps with h | h
      · rw [h]; simp [getPath]
      · rw [h, hget]; rfl
    exact findRec_replaceRecVal r (mongoSegs (parentKeyStr fs)) (mongoSegs (parentKeyStr fs))
      (Or.inr rfl) nv hnv (getCol db b) rc hfind

/-- Claim C3 witness: after replace(buck/rec, (b : 2)) a merge of
(a : 1) yields a read of (b : 2, a : 1), keeping the unmentioned key,
and the general frame theorem applies at this input. -/
theorem update_merge_frame_witness :
    update_data_v2 ⟨[("buck", [⟨"rec", .obj [("b", .num 2)]⟩])], []⟩ "buck/rec" [("a", .num 1)]
      = (.ok (.obj [("a", .num 1)]),
         ⟨[("buck", [⟨"rec", .obj [("b", .num 2), ("a", .num 1)]⟩])], []⟩) ∧
    query_data_v2 ⟨[("buck", [⟨"rec", .obj [("b", .num 2), ("a", .num 1)]⟩])], []⟩ "buck/rec"
      none none none none none none = .ok (.obj [("b", .num 2), ("a", .num 1)]) ∧
    (∃ db' nv,
      update_data_v2 ⟨[("buck", [⟨"rec", .obj [("b", .num 2)]⟩])], []⟩ "buck/rec" [("a", .num 1)]
        = (.ok (.obj [("a", .num 1)]), db') ∧
      findRec (getCol db' "buck") "rec" (mongoSegs (parentKeyStr [])) = some ⟨"rec", nv⟩ ∧
      getPath nv [] = some (.obj ([("a", .num 1)].foldl
        (fun acc kv => objUpsert kv.1 kv.2 acc) [("b", .num 2)])) ∧
      (∀ k, lookupField k ([("a", .num 1)].foldl
          (fun acc kv => objUpsert kv.1 kv.2 acc) [("b", .num 2)])
        = (match lookupField k [("a", .num 1)] with
           | some v => some v
           | none => lookupField k [("b", .num 2)]))) := by
  refine ⟨rfl, rfl, ?_⟩
  exact update_merge_frame ⟨[("buck", [⟨"rec", .obj [("b", .num 2)]⟩])], []⟩ "buck/rec"
    "buck" "rec" [] [("a", .num 1)] ⟨"rec", .obj [("b", .num 2)]⟩ [("b", .num 2)]
    rfl (Or.inl rfl)
    (by
      intro kv hkv
      rw [List.mem_singleton] at hkv
      subst hkv
      rfl)
    (by simp) rfl rfl

/-! ## C9: limit semantics -/

instance : IsTotal Rec idLe := ⟨fun a b => le_total a.id.toList b.id.toList⟩

instance : IsTrans Rec idLe := ⟨fun _ _ _ h1 h2 => le_trans h1 h2⟩

instance : IsTotal Rec idGe := ⟨fun a b => le_total b.id.toList a.id.toList⟩

instance : IsTrans Rec idGe := ⟨fun _ _ _ h1 h2 => le_trans h2 h1⟩

/-- The strict descending order on record ids. -/
def idLt' (a b : Rec) : Prop := b.id.toList < a.id.toList

instance : IsAntisymm Rec idLt' :=
  ⟨fun _ _ h1 h2 => absurd (lt_trans h1 h2) (lt_irrefl _)⟩

theorem pairwise_id_ne (s : List Rec) (hnd : (colIds s).Nodup) :
    List.Pairwise (fun a b : Rec => a.id ≠ b.id) s := by
  have h : List.Pairwise (fun a b : String => a ≠ b) (s.map Rec.id) := hnd
  exact List.pairwise_map.mp h

theorem idLt_of_ge_ne (a b : Rec) (h1 : idGe a b) (h2 : a.id ≠ b.id) : idLt' a b :=
  lt_of_le_of_ne h1 (fun he => h2 (String.ext he).symm)

theorem idSort_desc_eq_reverse (l : List Rec) (hnd : (colIds l).Nodup) :
    idSort true l = (idSort false l).reverse := by
  show List.insertionSort idGe l = (List.insertionSort idLe l).reverse
  apply List.eq_of_perm_of_sorted (r := idLt')
  · exact (List.perm_insertionSort idGe l).trans
      (((List.reverse_perm (List.insertionSort idLe l)).trans
        (List.perm_insertionSort idLe l)).symm)
  · exact ((List.sorted_insertionSort idGe l).and
      (pairwise_id_ne _ (((List.perm_insertionSort idGe l).map Rec.id).symm.nodup hnd))).imp
      (fun hx => idLt_of_ge_ne _ _ hx.1 hx.2)
  · rw [List.Sorted, List.pairwise_reverse]
    exact ((List.sorted_insertionSort idLe l).and
      (pairwise_id_ne _ (((List.perm_insertionSort idLe l).map Rec.id).symm.nodup hnd))).imp
      (fun hx => idLt_of_ge_ne _ _ hx.1 (fun he => hx.2 he.symm))

/-- Claim C9 (amended): over the ordered, filtered candidates of a
bucket-level key-ordered query (ascending id order), limitToFirst = n
returns exactly the first n entries, in ascending order; limitToLast = n
returns exactly the last n entries, but presented in descending order
(the source sorts descending for limitToLast and never restores the
ascending presentation). -/
theorem limit_semantics_v2
    (db : DB) (p b : String) (n : Int) (eq sa ea : Option QP)
    (hcomps : pyPathComponents p = [b])
    (hnd : (colIds (getCol db b)).Nodup)
    (hsa : qpIsInt sa = false) (hea : qpIsInt ea = false)
    (hn : 0 < n) :
    query_data_v2 db p (some "\"$key\"") (some n) none eq sa ea
      = .ok (.obj (((idSort false ((getCol db b).filter (fmIdPred eq sa ea))).take n.natAbs).map
          (fun r => (r.id, r.val)))) ∧
    query_data_v2 db p (some "\"$key\"") none (some n) eq sa ea
      = .ok (.obj ((((idSort false ((getCol db b).filter (fmIdPred eq sa ea))).drop
          ((idSort false ((getCol db b).filter (fmIdPred eq sa ea))).length - n.natAbs)).reverse).map
          (fun r => (r.id, r.val)))) := by
  have hne0 : (n == 0) = false := by
    simp only [beq_eq_false_iff_ne, ne_eq]
    omega
  have hndF : (colIds ((getCol db b).filter (fmIdPred eq sa ea))).Nodup :=
    ((List.filter_sublist _).map Rec.id).nodup hnd
  have hndS : (colIds (idSort false ((getCol db b).filter (fmIdPred eq sa ea)))).Nodup :=
    ((List.perm_insertionSort idLe _).map Rec.id).symm.nodup hndF
  constructor
  · have hv : validationFails (some "\"$key\"") (some n) none eq sa ea = none := by
      unfold validationFails
      simp
    unfold query_data_v2
    simp only [hv, hcomps, beq_self_eq_true, if_true, hsa, hea, Bool.or_self,
      Bool.and_false, Bool.false_eq_true, if_false]
    have hlim : applyMongoLimit (some n) none
        (idSort false ((getCol db b).filter (fmIdPred eq sa ea)))
        = .ok ((idSort false ((getCol db b).filter (fmIdPred eq sa ea))).take n.natAbs) := by
      unfold applyMongoLimit
      simp only [Option.isSome_some, Bool.true_or, if_true, hne0, Bool.false_eq_true, if_false]
    have hndT : (colIds ((idSort false ((getCol db b).filter (fmIdPred eq sa ea))).take
        n.natAbs)).Nodup :=
      ((List.take_sublist _ _).map Rec.id).nodup hndS
    simp only [Option.isSome_none, hlim, buildResult_eq_map _ hndT]
  · have hv : validationFails (some "\"$key\"") none (some n) eq sa ea = none := by
      unfold validationFails
      simp
    unfold query_data_v2
    simp only [hv, hcomps, beq_self_eq_true, if_true, hsa, hea, Bool.or_self,
      Bool.and_false, Bool.false_eq_true, if_false]
    have hdesc : idSort true ((getCol db b).filter (fmIdPred eq sa ea))
        = (idSort false ((getCol db b).filter (fmIdPred eq sa ea))).reverse :=
      idSort_desc_eq_reverse _ hndF
    have hlim : applyMongoLimit none (some n)
        ((idSort false ((getCol db b).filter (fmIdPred eq sa ea))).reverse)
        = .ok (((idSort false ((getCol db b).filter (fmIdPred eq sa ea))).reverse).take n.natAbs) := by
      unfold applyMongoLimit
      simp only [Option.isSome_some, Bool.or_true, if_true, hne0, Bool.false_eq_true, if_false]
    have htr : ((idSort false ((getCol db b).filter (fmIdPred eq sa ea))).reverse).take n.natAbs
        = ((idSort false ((getCol db b).filter (fmIdPred eq sa ea))).drop
            ((idSort false ((getCol db b).filter (fmIdPred eq sa ea))).length - n.natAbs)).reverse :=
      List.take_reverse
    have hndT : (colIds (((idSort false ((getCol db b).filter (fmIdPred eq sa ea))).drop
        ((idSort false ((getCol db b).filter (fmIdPred eq sa ea))).length - n.natAbs)).reverse)).Nodup := by
      have h1 : (colIds ((idSort false ((getCol db b).filter (fmIdPred eq sa ea))).drop
          ((idSort false ((getCol db b).filter (fmIdPred eq sa ea))).length - n.natAbs))).Nodup :=
        ((List.drop_sublist _ _).map Rec.id).nodup hndS
      have : colIds (((idSort false ((getCol db b).filter (fmIdPred eq sa ea))).drop
          ((idSort false ((getCol db b).filter (fmIdPred eq sa ea))).length - n.natAbs)).reverse)
          = (colIds ((idSort false ((getCol db b).filter (fmIdPred eq sa ea))).drop
            ((idSort false ((getCol db b).filter (fmIdPred eq sa ea))).length - n.natAbs))).reverse := by
        simp [colIds]
      rw [this, List.nodup_reverse]
      exact h1
    simp only [Option.isSome_some, hdesc, hlim, htr, buildResult_eq_map _ hndT]

/-- Claim C9 witness: over the ordered candidates a, b, c, limitToFirst 2
returns a then b in ascending order, and limitToLast 2 returns exactly
the last two entries c and b, presented in descending order. -/
theorem limit_semantics_v2_witness :
    query_data_v2 ⟨[("k", [⟨"b", .num 2⟩, ⟨"a", .num 1⟩, ⟨"c", .num 3⟩])], []⟩ "k"
      (some "\"$key\"") (some 2) none none none none
      = .ok (.obj [("a", .num 1), ("b", .num 2)]) ∧
    query_data_v2 ⟨[("k", [⟨"b", .num 2⟩, ⟨"a", .num 1⟩, ⟨"c", .num 3⟩])], []⟩ "k"
      (some "\"$key\"") none (some 2) none none none
      = .ok (.obj [("c", .num 3), ("b", .num 2)]) := by
  have h := limit_semantics_v2 ⟨[("k", [⟨"b", .num 2⟩, ⟨"a", .num 1⟩, ⟨"c", .num 3⟩])], []⟩
    "k" "k" 2 none none none rfl (by decide) rfl rfl (by decide)
  exact ⟨h.1.trans (by rfl), h.2.trans (by rfl)⟩

/-- Claim C9 counterexample: with the ordered candidates a, b, c and
limitToLast 2, the returned mapping presents c before b, not the
ascending order b then c that the claim states. -/
theorem limit_to_last_presented_descending :
    query_data_v2 ⟨[("k9", [⟨"a", .num 1⟩, ⟨"b", .num 2⟩, ⟨"c", .num 3⟩])], []⟩ "k9"
      (some "\"$key\"") none (some 2) none none none
      = .ok (.obj [("c", .num 3), ("b", .num 2)]) ∧
    [("c", J.num 3), ("b", J.num 2)].map Prod.fst ≠ ["b", "c"] :=
  ⟨rfl, by decide⟩

/-! ## C10: reserved collections never appear in root results -/

theorem pySliceTo_subset (n : Int) (l : List α) : pySliceTo n l ⊆ l := by
  unfold pySliceTo
  split
  · exact List.take_subset _ _
  · exact List.take_subset _ _

theorem pySliceFrom_subset (n : Int) (l : List α) : pySliceFrom n l ⊆ l := by
  unfold pySliceFrom
  split
  · exact List.drop_subset _ _
  · exact List.drop_subset _ _

theorem pyLimits_subset (ltf ltl : Option Int) (l : List α) : pyLimits ltf ltl l ⊆ l := by
  unfold pyLimits
  cases ltl with
  | none =>
      cases ltf with
      | none => exact fun x hx => hx
      | some n => exact pySliceTo_subset n l
  | some m =>
      cases ltf with
      | none => exact pySliceFrom_subset (-m) l
      | some n => exact fun x hx => pySliceTo_subset n l (pySliceFrom_subset (-m) _ hx)

theorem order_by_key_subset (items : List String) (sa ea : Option QP) :
    order_by_key items sa ea ⊆ items := by
  have h1 : ∀ i1 : List String, (match ea with
      | some (QP.s t) => i1.filter (fun it => strLeB it t)
      | some (QP.i _) => i1.filter (fun _ => false)
      | none => i1) ⊆ i1 := by
    intro i1
    cases ea with
    | none => exact fun x hx => hx
    | some q => cases q <;> exact fun x hx => List.mem_of_mem_filter hx
  have h2 : (match sa with
      | some (QP.s t) => items.filter (fun it => strLeB t it)
      | some (QP.i _) => items.filter (fun _ => false)
      | none => items) ⊆ items := by
    cases sa with
    | none => exact fun x hx => hx
    | some q => cases q <;> exact fun x hx => List.mem_of_mem_filter hx
  unfold order_by_key
  exact fun x hx => h2 (h1 _ hx)

theorem order_by_value_subset (d : List (String × J)) (sa ea : Option QP) :
    order_by_value d sa ea ⊆ d := by
  have h1 : ∀ f1 : List (String × J), (match ea with
      | some q => f1.filter (fun kv => strLeB (pyStr kv.2) (qpStr q))
      | none => f1) ⊆ f1 := by
    intro f1
    cases ea with
    | none => exact fun x hx => hx
    | some q => exact fun x hx => List.mem_of_mem_filter hx
  have h2 : (match sa with
      | some q =>
          (List.insertionSort obvLe d).filter (fun kv => strLeB (qpStr q) (pyStr kv.2))
      | none => List.insertionSort obvLe d) ⊆ List.insertionSort obvLe d := by
    cases sa with
    | none => exact fun x hx => hx
    | some q => exact fun x hx => List.mem_of_mem_filter hx
  unfold order_by_value
  exact fun x hx => (List.perm_insertionSort obvLe d).subset (h2 (h1 _ hx))

theorem mem_rootCollections_not_reserved (db : DB) (c : String)
    (hc : c ∈ rootCollections db) : c ≠ "__fm_rules__" ∧ c ≠ "__fm_root__" := by
  have hm := (List.perm_insertionSort strLe _).subset hc
  have hf := (List.mem_filter.mp hm).2
  simp only [Bool.and_eq_true, Bool.not_eq_eq_eq_not, Bool.not_true, beq_eq_false_iff_ne,
    ne_eq] at hf
  exact ⟨hf.2, hf.1⟩

theorem reserved_not_key (db : DB) (l : List (String × J))
    (hsub : ∀ kv ∈ l, kv.1 ∈ rootCollections db) :
    "__fm_rules__" ∉ l.map Prod.fst ∧ "__fm_root__" ∉ l.map Prod.fst := by
  constructor
  · intro hmem
    obtain ⟨kv, hkv, hfst⟩ := List.mem_map.mp hmem
    exact (mem_rootCollections_not_reserved db kv.1 (hsub kv hkv)).1 hfst
  · intro hmem
    obtain ⟨kv, hkv, hfst⟩ := List.mem_map.mp hmem
    exact (mem_rootCollections_not_reserved db kv.1 (hsub kv hkv)).2 hfst

theorem hsub_of_cols (db : DB) (cols' : List String) (hc : cols' ⊆ rootCollections db) :
    ∀ kv ∈ cols'.map (rootEntry db), kv.1 ∈ rootCollections db := by
  intro kv hkv
  obtain ⟨c, hcmem, hce⟩ := List.mem_map.mp hkv
  have : kv.1 = c := by rw [← hce]; rfl
  rw [this]
  exact hc hcmem

set_option maxHeartbeats 1600000 in
/-- Claim C10: whatever parameters a root query is given, a successful
result never contains an entry for the reserved collection names
__fm_rules__ or __fm_root__; the index rules stored by set-index are
therefore never exposed through root reads. -/
theorem root_query_hides_reserved
    (db : DB) (ob : Option String) (ltf ltl : Option Int) (eq sa ea : Option QP)
    (l : List (String × J))
    (h : query_data_root_v2 db ob ltf ltl eq sa ea = .ok l) :
    "__fm_rules__" ∉ l.map Prod.fst ∧ "__fm_root__" ∉ l.map Prod.fst := by
  unfold query_data_root_v2 at h
  cases hval : validationFails ob ltf ltl eq sa ea with
  | some e => rw [hval] at h; exact absurd h (by simp)
  | none =>
    rw [hval] at h
    cases ob with
    | none =>
        simp only [Option.some.injEq] at h
        injection h with h
        subst h
        exact reserved_not_key db _ (hsub_of_cols db _ (fun c hc => hc))
    | some o =>
        simp only at h
        by_cases hk : (o == "\"$key\"") = true
        · rw [if_pos hk] at h
          cases hE : (if sa.isSome || ea.isSome then
              (if qpIsInt sa || qpIsInt ea then Except.error Err.invalidFilterType
               else Except.ok (order_by_key (rootCollections db) sa ea))
             else Except.ok (rootCollections db)) with
          | error e => rw [hE] at h; exact absurd h (by simp)
          | ok cols1 =>
              rw [hE] at h
              have hc1 : cols1 ⊆ rootCollections db := by
                by_cases hcnd : (sa.isSome || ea.isSome) = true
                · rw [if_pos hcnd] at hE
                  by_cases hcnd2 : (qpIsInt sa || qpIsInt ea) = true
                  · rw [if_pos hcnd2] at hE; exact absurd hE (by simp)
                  · rw [if_neg hcnd2] at hE
                    injection hE with hE
                    rw [← hE]
                    exact order_by_key_subset _ _ _
                · rw [if_neg hcnd] at hE
                  injection hE with hE
                  rw [← hE]
                  exact fun c hc => hc
              injection h with h
              subst h
              apply reserved_not_key db _ (hsub_of_cols db _ ?_)
              intro c hc
              have hc2 := pyLimits_subset ltf ltl _ hc
              cases eq with
              | none => exact hc1 hc2
              | some q =>
                  simp only at hc2
                  by_cases hemp : cols1.isEmpty
                  · rw [if_pos hemp] at hc2
                    exact hc1 hc2
                  · rw [if_neg hemp] at hc2
                    cases q with
                    | s t =>
                        simp only at hc2
                        by_cases hmem : cols1.contains t
                        · rw [if_pos hmem] at hc2
                          rw [List.mem_singleton] at hc2
                          subst hc2
                          exact hc1 (by
                            rw [List.contains_eq_any_beq] at hmem
                            obtain ⟨x, hx, hbe⟩ := List.any_eq_true.mp hmem
                            rw [beq_iff_eq.mp hbe]
                            exact hx)
                        · rw [if_neg hmem] at hc2
                          exact absurd hc2 (List.not_mem_nil c)
                    | i m =>
                        simp only at hc2
                        exact absurd hc2 (List.not_mem_nil c)
        · rw [if_neg hk] at h
          by_cases hv2 : (o == "\"$value\"") = true
          · rw [if_pos hv2] at h
            cases hci : check_index db none with
            | none => rw [hci] at h; exact absurd h (by simp)
            | some idx =>
                rw [hci] at h
                simp only at h
                by_cases hcon : pyInIdx ".value" idx = true
                · rw [if_pos hcon] at h
                  injection h with h
                  subst h
                  apply reserved_not_key
                  intro kv hkv
                  have h1 : kv ∈ order_by_value
                      (if eq.isSome then []
                       else (rootCollections db).map (rootEntry db)) sa ea := by
                    by_cases hlim : (ltf.isSome || ltl.isSome) = true
                    · rw [if_pos hlim] at hkv
                      exact pyLimits_subset _ _ _ hkv
                    · rw [if_neg hlim] at hkv
                      exact hkv
                  have h2 := order_by_value_subset _ sa ea h1
                  by_cases he : eq.isSome = true
                  · rw [if_pos he] at h2
                    exact absurd h2 (List.not_mem_nil kv)
                  · rw [if_neg he] at h2
                    exact hsub_of_cols db _ (fun c hc => hc) kv h2
                · rw [if_neg hcon] at h
                  exact absurd h (by simp)
          · rw [if_neg hv2] at h
            cases hci : check_index db none with
            | none => rw [hci] at h; exact absurd h (by simp)
            | some idx =>
                rw [hci] at h
                simp only at h
                by_cases hcon : (idxTruthy idx && pyInIdx (stripQuotes o) idx) = true
                · rw [if_pos hcon] at h
                  injection h with h
                  subst h
                  apply reserved_not_key db _ (hsub_of_cols db _ ?_)
                  intro c hc
                  have hc2 := pyLimits_subset ltf ltl _ hc
                  by_cases hcnd : (sa.isSome || ea.isSome || eq.isSome) = true
                  · rw [if_pos hcnd] at hc2
                    exact absurd hc2 (List.not_mem_nil c)
                  · rw [if_neg hcnd] at hc2
                    exact hc2
                · rw [if_neg hcon] at h
                  exact absurd h (by simp)

/-- Claim C10 witness: a root query over a store holding a normal bucket
and index rules succeeds and does not list the reserved collections. -/
theorem root_query_hides_reserved_witness :
    query_data_root_v2 ⟨[("z", [⟨"r", .num 1⟩]), ("__fm_root__", [])], [("b", Idx.str "age")]⟩
      none none none none none none = .ok [("z", .obj [("r", .num 1)])] ∧
    ("__fm_rules__" ∉ [("z", J.obj [("r", .num 1)])].map Prod.fst ∧
     "__fm_root__" ∉ [("z", J.obj [("r", .num 1)])].map Prod.fst) :=
  ⟨rfl, root_query_hides_reserved
    ⟨[("z", [⟨"r", .num 1⟩]), ("__fm_root__", [])], [("b", Idx.str "age")]⟩
    none none none none none none [("z", .obj [("r", .num 1)])] rfl⟩
